import Mathlib

/-!
# HookManager core — shallow embedding

A Lean model of the event dispatch engine of HookManager:

* `src/core/hook-executor.ts` — matcher/filter selection (`checkMatcher`,
  `getMatcherTargetForEvent`, `checkFilter`), the per-hook supervisor
  (`executeHook` with retry/backoff and blocking exit codes), the AI-prompt
  variant (`executePrompt`), batch execution (`executeHooks`) and summary
  aggregation (`calculateSummary`);
* `src/core/hook-registry.ts` — the handler store (`register`, `unregister`,
  `enable`, `disable`, `updatePriority`, `updateEvents`, `getHooksForEvent`,
  `updateStats`, `recordError`).

Modelling conventions:

* JavaScript `Map` objects become insertion-ordered association lists;
  `Map.set` replaces in place or appends, `Map.delete` removes the entry.
* Optional / possibly-`undefined` fields become `Option`; JavaScript string
  truthiness (`undefined`, `null`, `""` all falsy) is `jsStr`.
* Machine integers are `Int` / `Nat` (exit codes and priorities are small,
  no overflow is reachable) and average durations are `ℚ` (JS floats on
  these programs are exact rationals only in the claims we state).
* External capabilities (the spawned process / loaded module behind a handler
  invocation, the JS regular-expression engine, `process.env`, the AI
  decision backend, the wall clock) are oracle parameters; the code under
  test never inspects them beyond the calls modelled here.
* Real-time ISO timestamp strings (`createdAt`, `startTime`, …) are omitted:
  they carry no logic.
-/

namespace HookManager

/-- All supported lifecycle events (enum `HookEvent` in `src/types/index.ts`). -/
inductive HookEvent where
  | SessionStart
  | SessionEnd
  | UserPromptSubmit
  | PreToolUse
  | PostToolUse
  | PostToolUseFailure
  | PermissionRequest
  | Notification
  | SubagentStart
  | SubagentStop
  | PreCompact
  | Stop
  | TeammateIdle
  | TaskCompleted
deriving DecidableEq, Repr

/-- JavaScript truthiness of an optional string: `undefined`/`null`/`""` are falsy. -/
def jsStr : Option String → Option String
  | some s => if s = "" then none else some s
  | none => none

/-- Lookup in a string-keyed record (`metadata.field` access on a plain object). -/
def mdLookup (md : List (String × String)) (k : String) : Option String :=
  (md.find? (fun p => p.1 == k)).map (·.2)

/-- `HookContext` (src/types/index.ts): one dispatched event.  `input` is
modelled already JSON-serialized, as the core only ever stringifies it. -/
structure HookContext where
  event : HookEvent
  sessionId : String := ""
  userId : Option String := none
  projectId : Option String := none
  tool : Option String := none
  command : Option String := none
  input : Option String := none
  metadata : Option (List (String × String)) := none
  environment : Option (List (String × String)) := none
deriving DecidableEq

/-- Oracle for JavaScript `new RegExp("^" ++ pattern ++ "$")`:
`compiles pattern` is whether the constructor succeeds, and
`test pattern target` is `.test(target)` of the anchored expression. -/
structure RegexOracle where
  compiles : String → Bool
  test : String → String → Bool

/-- `getMatcherTargetForEvent` (hook-executor.ts, lines 804–838): the
event-specific metadata field a non-tool matcher is evaluated against.
`metadata.source || null` collapses the empty string to `null`, hence `jsStr`. -/
def getMatcherTargetForEvent (event : HookEvent)
    (metadata : Option (List (String × String))) : Option String :=
  match metadata with
  | none => none
  | some md =>
    match event with
    | .SessionStart => jsStr (mdLookup md "source")
    | .SessionEnd => jsStr (mdLookup md "reason")
    | .SubagentStart => jsStr (mdLookup md "agent_type")
    | .SubagentStop => jsStr (mdLookup md "agent_type")
    | .Notification => jsStr (mdLookup md "type")
    | .PreCompact => jsStr (mdLookup md "trigger")
    | _ => none

/-- The `try regex.test / catch exact-equality` pattern of `checkMatcher`. -/
def regexOrExact (ro : RegexOracle) (matcher target : String) : Bool :=
  if ro.compiles matcher then ro.test matcher target else target == matcher

/-- `checkMatcher` (hook-executor.ts, lines 769–798).  Wildcards always pass;
otherwise the code first tries `context.tool` (whenever it is truthy,
regardless of the event type) and only then the event-specific metadata
target; with neither target the check fails. -/
def checkMatcher (ro : RegexOracle) (matcher : String) (ctx : HookContext) : Bool :=
  if matcher == "*" || matcher == "" || matcher == ".*" then true
  else
    match jsStr ctx.tool with
    | some tool => regexOrExact ro matcher tool
    | none =>
      match getMatcherTargetForEvent ctx.event ctx.metadata with
      | some targetValue => regexOrExact ro matcher targetValue
      | none => false

/-- `HookFilter` (src/types/index.ts). -/
structure HookFilter where
  tools : Option (List String) := none
  commands : Option (List String) := none
  patterns : Option (List String) := none
  users : Option (List String) := none
  projects : Option (List String) := none
  environments : Option (List String) := none
deriving DecidableEq

/-- JavaScript `haystack.includes(needle)` on strings. -/
def strContains (s pat : String) : Bool := decide (pat.data <:+: s.data)

/-- `checkFilter`, tools clause: `filter.tools && context.tool` guard, then
membership. An empty `tools` array is truthy in JS and rejects every tool. -/
def filterToolsOk (f : HookFilter) (ctx : HookContext) : Bool :=
  match f.tools, jsStr ctx.tool with
  | some ts, some t => ts.contains t
  | _, _ => true

/-- `checkFilter`, commands clause: fails outright when no command is present,
otherwise at least one listed substring must occur in the command. -/
def filterCommandsOk (f : HookFilter) (ctx : HookContext) : Bool :=
  match f.commands with
  | some cmds =>
    match jsStr ctx.command with
    | some c => cmds.any (fun cmd => strContains c cmd)
    | none => false
  | none => true

/-- `checkFilter`, patterns clause over the JSON-serialized input. -/
def filterPatternsOk (f : HookFilter) (ctx : HookContext) : Bool :=
  match f.patterns, jsStr ctx.input with
  | some ps, some inputStr => ps.any (fun pat => strContains inputStr pat)
  | _, _ => true

/-- `checkFilter`, users clause. -/
def filterUsersOk (f : HookFilter) (ctx : HookContext) : Bool :=
  match f.users, jsStr ctx.userId with
  | some us, some u => us.contains u
  | _, _ => true

/-- `checkFilter`, projects clause. -/
def filterProjectsOk (f : HookFilter) (ctx : HookContext) : Bool :=
  match f.projects, jsStr ctx.projectId with
  | some ps, some p => ps.contains p
  | _, _ => true

/-- `checkFilter`, environments clause: `context.environment || process.env`,
then `env.NODE_ENV || env.ENV || 'development'`. -/
def filterEnvironmentsOk (procEnv : List (String × String))
    (f : HookFilter) (ctx : HookContext) : Bool :=
  match f.environments with
  | some envs =>
    let env := ctx.environment.getD procEnv
    let envName :=
      (jsStr (mdLookup env "NODE_ENV")).getD
        ((jsStr (mdLookup env "ENV")).getD "development")
    envs.contains envName
  | none => true

/-- `checkFilter` (hook-executor.ts, lines 843–898): all present
sub-conditions are checked in order with early `return false`, which is the
conjunction of the six clauses. -/
def checkFilter (procEnv : List (String × String))
    (f : HookFilter) (ctx : HookContext) : Bool :=
  filterToolsOk f ctx && filterCommandsOk f ctx && filterPatternsOk f ctx &&
    filterUsersOk f ctx && filterProjectsOk f ctx && filterEnvironmentsOk procEnv f ctx

/-- The two JSON shapes `executePrompt` writes into `result.output`
(`stdout` carries `JSON.stringify` of the same object and is not modelled
separately). -/
inductive PromptOutput where
  | decision (decision : String) (reason : String)
  | permission (permissionDecision : String) (permissionDecisionReason : String)
deriving DecidableEq

/-- `HookResult` (src/types/index.ts), restricted to the fields the core
reads or writes.  `errorMsg` is the message of the `error` field. -/
structure HookResult where
  success : Bool
  exitCode : Int
  stdout : Option String := none
  stderr : Option String := none
  output : Option PromptOutput := none
  errorMsg : Option String := none
deriving DecidableEq

/-- The object `ProviderManager.executeHookPrompt` resolves with: `ok` and
`reason` are read with `result.ok ?? true` and `result.reason || ''`. -/
structure ProviderResult where
  ok : Option Bool := none
  reason : Option String := none
deriving DecidableEq

/-- A `prompt`-variant handler definition (`HookHandlerPrompt`). -/
structure PromptHandler where
  prompt : String := ""
  model : Option String := none
  systemPrompt : Option String := none
deriving DecidableEq

/-- The fixed allow-list of decision events in `executePrompt`. -/
def decisionEvents : List HookEvent :=
  [.PreToolUse, .PostToolUse, .PostToolUseFailure,
   .PermissionRequest, .UserPromptSubmit, .SubagentStop]

/-- `executePrompt` (hook-executor.ts, lines 604–762).  The decision backend
is the oracle `pm`: `none` models `this.providerManager === null`,
`some (.error e)` a call that throws with message `e`, `some (.ok r)` a
successful call resolving with `r`.  All paths return; nothing propagates. -/
def executePrompt (pm : Option (Except String ProviderResult))
    (handler : PromptHandler) (ctx : HookContext) : HookResult :=
  if !(decisionEvents.contains ctx.event) then
    { success := true, exitCode := 0,
      stdout := some "Event does not support prompt decisions" }
  else
    match pm with
    | none =>
      { success := true, exitCode := 0,
        output := some (.decision "continue" "ProviderManager not initialized") }
    | some (.error e) =>
      { success := true, exitCode := 0,
        output := some (.decision "continue"
          ("Prompt handler failed: " ++ e.take 100)) }
    | some (.ok r) =>
      let ok := r.ok.getD true
      let reason := (jsStr r.reason).getD ""
      if ctx.event = .PreToolUse ∨ ctx.event = .PermissionRequest then
        { success := true, exitCode := 0,
          output := some (.permission (if ok then "allow" else "deny") reason) }
      else
        { success := true, exitCode := if ok then 0 else 2,
          output := some (.decision (if ok then "continue" else "block") reason) }

/-- `ExecuteOptions` (src/types/index.ts) as read by `executeHooks`/`executeHook`. -/
structure ExecOptions where
  parallel : Bool := false
  continueOnError : Bool := false
  timeout : Option Nat := none
  retry : Option Nat := none
deriving DecidableEq

/-- The hook object `executeHook` reads (registry entries are passed as
`any`); only the fields the executor touches are modelled. -/
structure ExecHook where
  id : String
  name : String := ""
  enabled : Bool := true
  matcher : Option String := none
  filter : Option HookFilter := none
  timeout : Option Nat := none
  retry : Option Nat := none
  exitCodeBlocking : Option (List Int) := none
deriving DecidableEq

/-- `shouldBlock` (hook-executor.ts, lines 903–906):
`hook.exitCodeBlocking || [2]` then membership of the exit code.
An explicitly empty array is truthy in JS and blocks nothing. -/
def shouldBlock (result : HookResult) (hook : ExecHook) : Bool :=
  let exitCodeBlocking := hook.exitCodeBlocking.getD [2]
  exitCodeBlocking.contains result.exitCode

/-- The ambient capabilities `executeHook` consults: the JS regex engine and
`process.env` (used by the environments filter clause). -/
structure Ambient where
  regex : RegexOracle
  procEnv : List (String × String) := []

/-- The two registry callbacks the supervisor performs
(`this.registry.recordError` / `this.registry.updateStats`). -/
inductive StatsCall where
  | recordError (hookId : String) (message : String)
  | updateStats (hookId : String) (duration : Nat) (success : Bool) (blocked : Bool)
deriving DecidableEq

/-- `ExecutionError` (src/types/index.ts) as thrown by `executeHook`:
`new ExecutionError(message, hookId, 1, undefined, lastError.message)`. -/
structure ExecErrorData where
  message : String
  hookId : String
  exitCode : Int
  stdout : Option String := none
  stderr : Option String := none
deriving DecidableEq

/-- `ExecutionResult` (src/types/index.ts): one record of a batch.
`errorMsg` is the message of the record-level `error` field set on the
catch paths of `executeHooks`. -/
structure ExecutionResult where
  hookId : String
  hookName : String
  event : HookEvent
  duration : Nat
  result : HookResult
  errorMsg : Option String := none
  blocked : Bool
deriving DecidableEq

/-- Trace of the retry loop of `executeHook` (lines 280–302): the result of
the first successful attempt (if any), the `lastError` variable, how many
times `executeHandler` was invoked, and the arguments of the backoff
`setTimeout` sleeps in order. -/
structure AttemptTrace where
  result : Option HookResult
  lastError : Option String
  invocations : Nat
  sleeps : List Nat
deriving DecidableEq

/-- The retry loop body: attempt `attempt`, up to `maxRetries` retries.
`invoke n` is the oracle for `this.executeHandler(hook.handler, context,
timeout)` on attempt `n` (`.error` models a throw).  `fuel` is
`maxRetries + 1 - attempt`, so the zero-fuel branch is unreachable from
`runAttempts`. -/
def runAttemptsAux (invoke : Nat → Except String HookResult) (maxRetries : Nat) :
    Nat → Nat → AttemptTrace
  | _, 0 => { result := none, lastError := none, invocations := 0, sleeps := [] }
  | attempt, fuel + 1 =>
    match invoke attempt with
    | .ok r => { result := some r, lastError := none, invocations := 1, sleeps := [] }
    | .error e =>
      if attempt = maxRetries then
        { result := none, lastError := some e, invocations := 1, sleeps := [] }
      else
        let rest := runAttemptsAux invoke maxRetries (attempt + 1) fuel
        { result := rest.result,
          lastError := rest.lastError.orElse (fun _ => some e),
          invocations := 1 + rest.invocations,
          sleeps := 1000 * attempt :: rest.sleeps }

/-- The whole retry loop `for (attempt = 0; attempt <= maxRetries; attempt++)`. -/
def runAttempts (invoke : Nat → Except String HookResult) (maxRetries : Nat) :
    AttemptTrace :=
  runAttemptsAux invoke maxRetries 0 (maxRetries + 1)

deriving instance DecidableEq for Except

/-- Everything observable about one `executeHook` call: its return value or
thrown `ExecutionError`, the registry callbacks in order, the backoff sleeps
and the number of handler invocations. -/
structure HookRunOutcome where
  result : Except ExecErrorData ExecutionResult
  statsCalls : List StatsCall
  sleeps : List Nat
  invocations : Nat
deriving DecidableEq

/-- The skip records of `executeHook` (disabled / matcher / filter):
`duration: 0`, a success result with exit code 0, `blocked: false`. -/
def skipRecord (hook : ExecHook) (ctx : HookContext) (msg : String) : ExecutionResult :=
  { hookId := hook.id, hookName := hook.name, event := ctx.event, duration := 0,
    result := { success := true, exitCode := 0, stdout := some msg },
    blocked := false }

/-- Effective retry count: `options.retry !== undefined ? options.retry :
hook.retry || 0` (the hook field is already `|| 0`-normalized to `Nat`). -/
def effectiveRetries (opts : ExecOptions) (hook : ExecHook) : Nat :=
  opts.retry.getD (hook.retry.getD 0)

/-- The execute path of `executeHook` (lines 273–350), entered once the
three skip checks have passed: retry loop, statistics callbacks and either
the returned record or the thrown `ExecutionError`. -/
def executeHookRun (invoke : Nat → Except String HookResult) (dur : Nat)
    (hook : ExecHook) (ctx : HookContext) (opts : ExecOptions) :
    HookRunOutcome :=
  let maxRetries := effectiveRetries opts hook
  let trace := runAttempts invoke maxRetries
  match trace.result with
  | none =>
    let errMsg := trace.lastError.getD "Hook execution failed"
    { result := .error
        { message := "Hook " ++ hook.name ++ " failed after " ++
            toString (maxRetries + 1) ++ " attempts",
          hookId := hook.id, exitCode := 1, stderr := some errMsg },
      statsCalls := [.recordError hook.id errMsg,
                     .updateStats hook.id dur false false],
      sleeps := trace.sleeps, invocations := trace.invocations }
  | some r =>
    let blocked := shouldBlock r hook
    { result := .ok
        { hookId := hook.id, hookName := hook.name, event := ctx.event,
          duration := dur, result := r, blocked := blocked },
      statsCalls := [.updateStats hook.id dur r.success blocked],
      sleeps := trace.sleeps, invocations := trace.invocations }

/-- `executeHook` (hook-executor.ts, lines 202–350).  `invoke` is the oracle
for the handler invocation per attempt; `dur` is the measured wall-clock
duration `endTime - startTime` of the execute path. -/
def executeHook (amb : Ambient) (invoke : Nat → Except String HookResult)
    (dur : Nat) (hook : ExecHook) (ctx : HookContext) (opts : ExecOptions) :
    HookRunOutcome :=
  if !hook.enabled then
    { result := .ok (skipRecord hook ctx "Hook disabled"),
      statsCalls := [], sleeps := [], invocations := 0 }
  else if (match jsStr hook.matcher with
           | some m => !(checkMatcher amb.regex m ctx)
           | none => false) then
    { result := .ok (skipRecord hook ctx "Matcher did not match"),
      statsCalls := [], sleeps := [], invocations := 0 }
  else if (match hook.filter with
           | some f => !(checkFilter amb.procEnv f ctx)
           | none => false) then
    { result := .ok (skipRecord hook ctx "Filter did not match"),
      statsCalls := [], sleeps := [], invocations := 0 }
  else
    executeHookRun invoke dur hook ctx opts

/-- The failed record `executeHooks` builds when `executeHook` throws
(identical shape on the sequential catch and the parallel `.catch`). -/
def caughtRecord (hook : ExecHook) (ctx : HookContext) (msg : String) :
    ExecutionResult :=
  { hookId := hook.id, hookName := hook.name, event := ctx.event, duration := 0,
    result := { success := false, exitCode := 1, errorMsg := some msg },
    errorMsg := some msg, blocked := false }

/-- Sequential arm of `executeHooks` (lines 136–177): run each hook in list
order; on a `blocked` result stop; on a thrown error record a failed result
and stop unless `continueOnError`.  `invokeOf i` / `durOf i` are the oracles
for the hook at position `i` of the original list. -/
def executeHooksSeq (amb : Ambient)
    (invokeOf : Nat → Nat → Except String HookResult) (durOf : Nat → Nat)
    (ctx : HookContext) (opts : ExecOptions) :
    List ExecHook → Nat → List ExecutionResult
  | [], _ => []
  | hook :: rest, i =>
    match (executeHook amb (invokeOf i) (durOf i) hook ctx opts).result with
    | .ok r =>
      if r.blocked then [r]
      else r :: executeHooksSeq amb invokeOf durOf ctx opts rest (i + 1)
    | .error e =>
      caughtRecord hook ctx e.message ::
        if opts.continueOnError then
          executeHooksSeq amb invokeOf durOf ctx opts rest (i + 1)
        else []

/-- Parallel arm of `executeHooks` (lines 113–134): every hook is mapped to
a promise whose rejection is converted per-hook into a failed record;
`Promise.all` keeps the input order and never cancels siblings. -/
def executeHooksPar (amb : Ambient)
    (invokeOf : Nat → Nat → Except String HookResult) (durOf : Nat → Nat)
    (ctx : HookContext) (opts : ExecOptions) :
    List ExecHook → Nat → List ExecutionResult
  | [], _ => []
  | hook :: rest, i =>
    (match (executeHook amb (invokeOf i) (durOf i) hook ctx opts).result with
     | .ok r => r
     | .error e => caughtRecord hook ctx e.message) ::
      executeHooksPar amb invokeOf durOf ctx opts rest (i + 1)

/-- `BatchExecutionResult['summary']`. -/
structure BatchSummary where
  total : Nat
  successful : Nat
  failed : Nat
  blocked : Nat
  averageDuration : ℚ
  errors : List (String × String)
deriving DecidableEq

/-- `calculateSummary` (hook-executor.ts, lines 943–969). -/
def calculateSummary (results : List ExecutionResult) : BatchSummary :=
  let durations := results.map (·.duration)
  { total := results.length
    successful := (results.filter (fun r => r.result.success)).length
    failed := (results.filter (fun r => !r.result.success)).length
    blocked := (results.filter (fun r => r.blocked)).length
    averageDuration :=
      if durations.length > 0 then
        ((durations.foldl (· + ·) 0 : Nat) : ℚ) / (durations.length : ℚ)
      else 0
    errors := (results.filter (fun r => !r.result.success)).map
      (fun r => (r.hookId, (r.result.errorMsg).getD "Unknown error")) }

/-- `BatchExecutionResult`. -/
structure BatchResult where
  results : List ExecutionResult
  summary : BatchSummary
deriving DecidableEq

/-- `executeHooks` (hook-executor.ts, lines 101–197). -/
def executeHooks (amb : Ambient)
    (invokeOf : Nat → Nat → Except String HookResult) (durOf : Nat → Nat)
    (hooks : List ExecHook) (ctx : HookContext) (opts : ExecOptions) :
    BatchResult :=
  let results :=
    if opts.parallel then executeHooksPar amb invokeOf durOf ctx opts hooks 0
    else executeHooksSeq amb invokeOf durOf ctx opts hooks 0
  { results := results, summary := calculateSummary results }

/-! ## HookRegistry (src/core/hook-registry.ts)

JavaScript `Map`s become insertion-ordered association lists. -/

/-- `Map.get`. -/
def mapGet {κ α : Type} [DecidableEq κ] (m : List (κ × α)) (k : κ) : Option α :=
  (m.find? (fun p => p.1 == k)).map (·.2)

/-- `Map.has`. -/
def mapHas {κ α : Type} [DecidableEq κ] (m : List (κ × α)) (k : κ) : Bool :=
  m.any (fun p => p.1 == k)

/-- `Map.set`: replace in place when the key exists, append otherwise. -/
def mapSet {κ α : Type} [DecidableEq κ] : List (κ × α) → κ → α → List (κ × α)
  | [], k, v => [(k, v)]
  | p :: m, k, v => if p.1 = k then (k, v) :: m else p :: mapSet m k v

/-- `Map.delete`. -/
def mapDelete {κ α : Type} [DecidableEq κ] (m : List (κ × α)) (k : κ) :
    List (κ × α) :=
  m.filter (fun p => !(p.1 == k))

/-- A tag for the handler variant stored in a registration (the executor
dispatches on `handler.type`; the registry only checks presence). -/
inductive HandlerTag where
  | command
  | script
  | module
  | programmatic
  | prompt
deriving DecidableEq

/-- A stored hook registration (the object built by `register`, lines
58–79; ISO timestamp fields omitted). -/
structure RegHook where
  id : String
  name : String
  description : String := ""
  enabled : Bool := true
  events : List HookEvent
  handler : HandlerTag
  filter : Option HookFilter := none
  priority : Int := 50
  timeout : Option Nat := none
  retry : Nat := 0
  continueOnError : Bool := true
  exitCodeBlocking : List Int := [2]
  executionCount : Nat := 0
  successCount : Nat := 0
  failureCount : Nat := 0
  lastError : Option String := none
deriving DecidableEq

/-- `HookStats` (timestamps omitted; `errorHistory` keeps the messages). -/
structure StatsEntry where
  hookId : String
  hookName : String
  executions : Nat := 0
  successes : Nat := 0
  failures : Nat := 0
  blockedCount : Nat := 0
  averageDuration : ℚ := 0
  lastError : Option String := none
  errorHistory : List String := []
deriving DecidableEq

/-- The mutable state of a `HookRegistry`: the hooks map, the event index,
the (derived) priority index and the stats map. -/
structure RegistryState where
  hooks : List (String × RegHook) := []
  eventIndex : List (HookEvent × List String) := []
  priorityIndex : List (HookEvent × List String) := []
  stats : List (String × StatsEntry) := []
deriving DecidableEq

/-- The fresh registry (`new HookRegistry`). -/
def emptyRegistry : RegistryState := {}

/-- Hooks sorted ascending by priority.  JS `Array.prototype.sort` with the
comparator `a.priority - b.priority` is a stable ascending sort, which
`List.mergeSort` with `≤` on priorities is. -/
def sortByPriority (hooks : List RegHook) : List RegHook :=
  hooks.mergeSort (fun a b => a.priority ≤ b.priority)

/-- `updatePriorityIndex` (hook-registry.ts, lines 264–279): rebuild, for
every indexed event, the priority-sorted list of its enabled hook ids. -/
def rebuildPriorityIndex (hooks : List (String × RegHook))
    (eventIndex : List (HookEvent × List String)) :
    List (HookEvent × List String) :=
  eventIndex.map (fun p =>
    (p.1, (sortByPriority ((p.2.filterMap (fun i => mapGet hooks i)).filter
      (fun h => h.enabled))).map (fun h => h.id)))

/-- `getHooksForEvent` (hook-registry.ts, lines 171–179): ids indexed for
the event, resolved, restricted to enabled hooks, sorted by priority. -/
def getHooksForEvent (s : RegistryState) (event : HookEvent) : List RegHook :=
  let hookIds := (mapGet s.eventIndex event).getD []
  let hooks := (hookIds.filterMap (fun i => mapGet s.hooks i)).filter
    (fun h => h.enabled)
  sortByPriority hooks

/-- The raw input of `register` (`hookConfig: any`): every field may be
absent, and the registry applies JS defaulting itself. -/
structure HookConfigIn where
  id : Option String := none
  name : Option String := none
  description : Option String := none
  enabled : Option Bool := none
  events : Option (List HookEvent) := none
  handler : Option HandlerTag := none
  filter : Option HookFilter := none
  priority : Option Int := none
  metadataPresent : Bool := false
  timeout : Option Nat := none
  retry : Option Nat := none
  continueOnError : Option Bool := none
  exitCodeBlocking : Option (List Int) := none
deriving DecidableEq

/-- `x || d` for a JS number: `undefined` and `0` both fall back. -/
def jsOrInt (x : Option Int) (d : Int) : Int :=
  match x with
  | some v => if v = 0 then d else v
  | none => d

/-- `x || d` for a JS non-negative count. -/
def jsOrNat (x : Option Nat) (d : Nat) : Nat :=
  match x with
  | some v => if v = 0 then d else v
  | none => d

/-- Push `id` onto `eventIndex.get(event)`, creating the entry first when
missing (`register` lines 85–90 / `updateEvents` lines 371–376). -/
def indexPush (idx : List (HookEvent × List String)) (e : HookEvent)
    (i : String) : List (HookEvent × List String) :=
  match mapGet idx e with
  | some ids => mapSet idx e (ids ++ [i])
  | none => mapSet idx e [i]

/-- Splice the first occurrence of `id` out of `eventIndex.get(event)` and
delete the entry when it ends up empty (`unregister` lines 132–143 /
`updateEvents` lines 353–364). -/
def indexRemove (idx : List (HookEvent × List String)) (e : HookEvent)
    (i : String) : List (HookEvent × List String) :=
  match mapGet idx e with
  | some ids =>
    let ids' := ids.erase i
    if ids'.isEmpty then mapDelete idx e else mapSet idx e ids'
  | none => idx

/-- `register` (hook-registry.ts, lines 38–117).  Validation happens before
any mutation, so a thrown `HookError` leaves the state unchanged (the
caller keeps the old state on `.error`).  Note that the priority range is
NOT validated here — only `updatePriority` checks it. -/
def register (s : RegistryState) (cfg : HookConfigIn) :
    Except String RegistryState :=
  if (jsStr cfg.id).isNone then .error "Hook ID is required"
  else if (jsStr cfg.name).isNone then .error "Hook name is required"
  else if cfg.events.getD [] = [] then .error "Hook must have at least one event"
  else if cfg.handler.isNone then .error "Hook handler is required"
  else
    let hookId := (jsStr cfg.id).getD ""
    let hook : RegHook :=
      { id := hookId
        name := (jsStr cfg.name).getD ""
        description := cfg.description.getD ""
        enabled := cfg.enabled != some false
        events := cfg.events.getD []
        handler := cfg.handler.getD .command
        filter := cfg.filter
        priority := jsOrInt cfg.priority 50
        timeout := cfg.timeout
        retry := jsOrNat cfg.retry 0
        continueOnError := cfg.continueOnError != some false
        exitCodeBlocking := cfg.exitCodeBlocking.getD [2] }
    let hooks' := mapSet s.hooks hookId hook
    let eventIndex' := hook.events.foldl (fun idx e => indexPush idx e hookId)
      s.eventIndex
    let stats' := mapSet s.stats hookId
      { hookId := hookId, hookName := hook.name }
    .ok { hooks := hooks'
          eventIndex := eventIndex'
          priorityIndex := rebuildPriorityIndex hooks' eventIndex'
          stats := stats' }

/-- `unregister` (hook-registry.ts, lines 122–152). -/
def unregister (s : RegistryState) (hookId : String) :
    Except String RegistryState :=
  match mapGet s.hooks hookId with
  | none => .error ("Hook not found: " ++ hookId)
  | some hook =>
    let hooks' := mapDelete s.hooks hookId
    let eventIndex' := hook.events.foldl (fun idx e => indexRemove idx e hookId)
      s.eventIndex
    .ok { hooks := hooks'
          eventIndex := eventIndex'
          priorityIndex := rebuildPriorityIndex hooks' eventIndex'
          stats := mapDelete s.stats hookId }

/-- `enable` (hook-registry.ts, lines 284–297). -/
def enable (s : RegistryState) (hookId : String) : Except String RegistryState :=
  match mapGet s.hooks hookId with
  | none => .error ("Hook not found: " ++ hookId)
  | some hook =>
    let hooks' := mapSet s.hooks hookId { hook with enabled := true }
    .ok { s with hooks := hooks'
                 priorityIndex := rebuildPriorityIndex hooks' s.eventIndex }

/-- `disable` (hook-registry.ts, lines 302–315). -/
def disable (s : RegistryState) (hookId : String) : Except String RegistryState :=
  match mapGet s.hooks hookId with
  | none => .error ("Hook not found: " ++ hookId)
  | some hook =>
    let hooks' := mapSet s.hooks hookId { hook with enabled := false }
    .ok { s with hooks := hooks'
                 priorityIndex := rebuildPriorityIndex hooks' s.eventIndex }

/-- `updatePriority` (hook-registry.ts, lines 320–337): this is where (and
only where) the `[0, 1000]` range is enforced. -/
def updatePriority (s : RegistryState) (hookId : String) (priority : Int) :
    Except String RegistryState :=
  match mapGet s.hooks hookId with
  | none => .error ("Hook not found: " ++ hookId)
  | some hook =>
    if priority < 0 ∨ priority > 1000 then
      .error "Priority must be between 0 and 1000"
    else
      let hooks' := mapSet s.hooks hookId { hook with priority := priority }
      .ok { s with hooks := hooks'
                   priorityIndex := rebuildPriorityIndex hooks' s.eventIndex }

/-- `updateEvents` (hook-registry.ts, lines 342–382): validate, splice the
id out of the old events' indexes, store the new events, push onto the new
events' indexes. -/
def updateEvents (s : RegistryState) (hookId : String)
    (events : List HookEvent) : Except String RegistryState :=
  match mapGet s.hooks hookId with
  | none => .error ("Hook not found: " ++ hookId)
  | some hook =>
    if events = [] then .error "Events cannot be empty"
    else
      let idxRemoved := hook.events.foldl (fun idx e => indexRemove idx e hookId)
        s.eventIndex
      let hooks' := mapSet s.hooks hookId { hook with events := events }
      let eventIndex' := events.foldl (fun idx e => indexPush idx e hookId)
        idxRemoved
      .ok { hooks := hooks'
            eventIndex := eventIndex'
            priorityIndex := rebuildPriorityIndex hooks' eventIndex'
            stats := s.stats }

/-- `updateStats` (hook-registry.ts, lines 202–232): counters, running
average and the mirror fields on the hook object. -/
def updateStatsOp (s : RegistryState) (hookId : String) (duration : Nat)
    (success : Bool) (blocked : Bool) : RegistryState :=
  match mapGet s.stats hookId with
  | none => s
  | some st =>
    let execs := st.executions + 1
    let st' : StatsEntry :=
      { st with
        executions := execs
        successes := st.successes + (if success then 1 else 0)
        failures := st.failures + (if success then 0 else 1)
        blockedCount := st.blockedCount + (if blocked then 1 else 0)
        averageDuration :=
          (st.averageDuration * ((execs : ℚ) - 1) + (duration : ℚ)) / (execs : ℚ) }
    let hooks' :=
      match mapGet s.hooks hookId with
      | some h => mapSet s.hooks hookId
          { h with executionCount := st'.executions
                   successCount := st'.successes
                   failureCount := st'.failures }
      | none => s.hooks
    { s with stats := mapSet s.stats hookId st', hooks := hooks' }

/-- `recordError` (hook-registry.ts, lines 237–259): append to the error
history, keep only the last 100 entries, mirror `lastError`. -/
def recordErrorOp (s : RegistryState) (hookId : String) (msg : String) :
    RegistryState :=
  match mapGet s.stats hookId with
  | none => s
  | some st =>
    let hist := st.errorHistory ++ [msg]
    let hist := if hist.length > 100 then hist.drop (hist.length - 100) else hist
    let st' := { st with lastError := some msg, errorHistory := hist }
    let hooks' :=
      match mapGet s.hooks hookId with
      | some h => mapSet s.hooks hookId { h with lastError := some msg }
      | none => s.hooks
    { s with stats := mapSet s.stats hookId st', hooks := hooks' }

/-- Replay the registry callbacks of an execution against a registry state. -/
def applyStatsCall (s : RegistryState) : StatsCall → RegistryState
  | .recordError hookId msg => recordErrorOp s hookId msg
  | .updateStats hookId duration success blocked =>
      updateStatsOp s hookId duration success blocked

/-- Replay a list of registry callbacks in order. -/
def applyStatsCalls (s : RegistryState) (calls : List StatsCall) : RegistryState :=
  calls.foldl applyStatsCall s

/-- One mutation through the public registry API. -/
inductive RegOp where
  | register (cfg : HookConfigIn)
  | unregister (id : String)
  | enable (id : String)
  | disable (id : String)
  | updatePriority (id : String) (priority : Int)
  | updateEvents (id : String) (events : List HookEvent)
deriving DecidableEq

/-- Apply one operation; a thrown validation / not-found error leaves the
state unchanged (every operation validates before mutating). -/
def applyOp (s : RegistryState) : RegOp → RegistryState
  | .register cfg => (register s cfg).toOption.getD s
  | .unregister i => (unregister s i).toOption.getD s
  | .enable i => (enable s i).toOption.getD s
  | .disable i => (disable s i).toOption.getD s
  | .updatePriority i p => (updatePriority s i p).toOption.getD s
  | .updateEvents i evs => (updateEvents s i evs).toOption.getD s

/-- Apply a sequence of operations from left to right. -/
def applyOps (s : RegistryState) (ops : List RegOp) : RegistryState :=
  ops.foldl applyOp s

/-! ## Spec-side model of the matcher (for the refinement claim C5)

These definitions follow the specification's words, to be compared with
`checkMatcher` above, which is translated from the source. -/

/-- From the spec: the event-specific metadata target — session-start:
`metadata.source`; session-end: `metadata.reason`; subagent start/stop:
`metadata.agent_type`; notification: `metadata.type`; pre-compaction:
`metadata.trigger`; an absent target fails the check. -/
def specMetadataTarget (event : HookEvent)
    (metadata : Option (List (String × String))) : Option String :=
  match event, metadata with
  | .SessionStart, some md => jsStr (mdLookup md "source")
  | .SessionEnd, some md => jsStr (mdLookup md "reason")
  | .SubagentStart, some md => jsStr (mdLookup md "agent_type")
  | .SubagentStop, some md => jsStr (mdLookup md "agent_type")
  | .Notification, some md => jsStr (mdLookup md "type")
  | .PreCompact, some md => jsStr (mdLookup md "trigger")
  | _, _ => none

/-- From the spec: the target string of the matcher is chosen by event
type — the tool name for the tool-related events, the event-specific
metadata field otherwise, no target for the remaining events. -/
def specMatcherTarget (ctx : HookContext) : Option String :=
  match ctx.event with
  | .PreToolUse => jsStr ctx.tool
  | .PostToolUse => jsStr ctx.tool
  | .PostToolUseFailure => jsStr ctx.tool
  | e => specMetadataTarget e ctx.metadata

/-- The spec's matcher check: wildcards pass; otherwise the anchored
regular expression is evaluated against the event-type-specific target,
failing when the target is absent or the event defines none. -/
def specCheckMatcher (ro : RegexOracle) (matcher : String)
    (ctx : HookContext) : Bool :=
  if matcher == "*" || matcher == "" || matcher == ".*" then true
  else
    match specMatcherTarget ctx with
    | some t => regexOrExact ro matcher t
    | none => false

/-- The amended target dispatch the code actually implements: the tool name
is the target whenever the context carries a (non-empty) tool — regardless
of the event type — and only otherwise the event-specific metadata field. -/
def amendedMatcherTarget (ctx : HookContext) : Option String :=
  match jsStr ctx.tool with
  | some t => some t
  | none => specMetadataTarget ctx.event ctx.metadata

/-- The amended matcher check (spec shape, amended target dispatch). -/
def amendedCheckMatcher (ro : RegexOracle) (matcher : String)
    (ctx : HookContext) : Bool :=
  if matcher == "*" || matcher == "" || matcher == ".*" then true
  else
    match amendedMatcherTarget ctx with
    | some t => regexOrExact ro matcher t
    | none => false

/-- A regex oracle for plain-literal patterns: an anchored regular
expression built from a literal (no metacharacters) always compiles and
matches exactly that literal. -/
def litRegex : RegexOracle :=
  { compiles := fun _ => true, test := fun p t => p == t }

/-- Ambient capabilities used by the concrete witnesses. -/
def ambLit : Ambient := { regex := litRegex }

/-- The failure reason `executePrompt` embeds on its fail-open paths. -/
def promptFailReason : Option (Except String ProviderResult) → String
  | none => "ProviderManager not initialized"
  | some (.error e) => "Prompt handler failed: " ++ e.take 100
  | some (.ok _) => ""

/-! ## Registry well-formedness -/

/-- The data-model invariant the spec states for the store: every stored
priority in `[0, 1000]`, events non-empty, ids unique in the store, and
each id at most once in every event's index. -/
def RegistryInvariant (s : RegistryState) : Prop :=
  (∀ p ∈ s.hooks, 0 ≤ p.2.priority ∧ p.2.priority ≤ 1000 ∧ p.2.events ≠ []) ∧
  (s.hooks.map Prod.fst).Nodup ∧
  (∀ q ∈ s.eventIndex, q.2.Nodup)

instance (s : RegistryState) : Decidable (RegistryInvariant s) := by
  unfold RegistryInvariant; infer_instance

/-- Full well-formedness of a registry state, strong enough to be preserved
by every operation: unique keys, every stored hook internally valid
(`id` field matching its key, non-empty duplicate-free events, priority in
range), duplicate-free index lists, and the two-way correspondence between
the hooks map and the event index. -/
def StoreWF (s : RegistryState) : Prop :=
  (s.hooks.map Prod.fst).Nodup ∧
  (s.eventIndex.map Prod.fst).Nodup ∧
  (∀ p ∈ s.hooks, p.2.id = p.1 ∧ p.2.events ≠ [] ∧ p.2.events.Nodup ∧
    0 ≤ p.2.priority ∧ p.2.priority ≤ 1000) ∧
  (∀ q ∈ s.eventIndex, q.2.Nodup ∧
    ∀ i ∈ q.2, ∃ p ∈ s.hooks, p.1 = i ∧ q.1 ∈ p.2.events) ∧
  (∀ p ∈ s.hooks, ∀ e ∈ p.2.events, ∃ q ∈ s.eventIndex, q.1 = e ∧ p.1 ∈ q.2)

instance (s : RegistryState) : Decidable (StoreWF s) := by
  unfold StoreWF; infer_instance

/-- Precondition on a single operation, relative to the state it is applied
to, under which the store invariant is preserved: a registration must use a
fresh id, a duplicate-free events list and a (defaulted) priority within
`[0, 1000]`, and `updateEvents` a duplicate-free events list.  The other
operations need nothing. -/
def okOp (s : RegistryState) : RegOp → Bool
  | .register cfg =>
      (jsStr cfg.id).all (fun i => !mapHas s.hooks i) &&
      decide (cfg.events.getD []).Nodup &&
      decide (0 ≤ jsOrInt cfg.priority 50) &&
      decide (jsOrInt cfg.priority 50 ≤ 1000)
  | .updateEvents _ events => decide events.Nodup
  | _ => true

/-- A trace of operations each satisfying `okOp` at its point of
application. -/
def okTrace : RegistryState → List RegOp → Bool
  | _, [] => true
  | s, op :: rest => okOp s op && okTrace (applyOp s op) rest

/-! ## Theorems -/

/-- C1: in a sequential batch the head hook is executed first, and when its
record is blocked the batch result is exactly that one record — the
remaining hooks are never invoked and contribute no record (the tail and
its oracles do not appear in the result); otherwise the record is followed
by the sequential execution of the tail. -/
theorem c1_sequential_stops_on_block
    (amb : Ambient) (invokeOf : Nat → Nat → Except String HookResult)
    (durOf : Nat → Nat) (ctx : HookContext) (opts : ExecOptions)
    (hook : ExecHook) (rest : List ExecHook) (i : Nat) (r : ExecutionResult)
    (h : (executeHook amb (invokeOf i) (durOf i) hook ctx opts).result = .ok r) :
    executeHooksSeq amb invokeOf durOf ctx opts (hook :: rest) i =
      (if r.blocked then [r]
       else r :: executeHooksSeq amb invokeOf durOf ctx opts rest (i + 1)) := by
  simp only [executeHooksSeq, h]

set_option maxRecDepth 8192 in
/-- Witness for C1: a sequential batch of `[H1, H2]` with default options
where H1 returns exit code 2 (blocked under the default blocking set)
yields exactly one record — H1's. -/
theorem c1_witness :
    executeHooksSeq ambLit (fun _ _ => .ok { success := true, exitCode := 2 })
      (fun _ => 5) { event := .PreToolUse } {}
      [{ id := "H1", name := "H1" }, { id := "H2", name := "H2" }] 0 =
      [{ hookId := "H1", hookName := "H1", event := .PreToolUse, duration := 5,
         result := { success := true, exitCode := 2 }, blocked := true }] := by
  rw [c1_sequential_stops_on_block ambLit (fun _ _ => .ok { success := true, exitCode := 2 })
    (fun _ => 5) { event := .PreToolUse } {} { id := "H1", name := "H1" }
    [{ id := "H2", name := "H2" }] 0
    { hookId := "H1", hookName := "H1", event := .PreToolUse, duration := 5,
      result := { success := true, exitCode := 2 }, blocked := true }
    (by decide)]
  decide

/-- When a hook is enabled and its matcher and filter checks pass,
`executeHook` is its execute path. -/
theorem executeHook_eq_run (amb : Ambient) (invoke : Nat → Except String HookResult)
    (dur : Nat) (hook : ExecHook) (ctx : HookContext) (opts : ExecOptions)
    (henabled : hook.enabled = true)
    (hmatcher : ∀ m, jsStr hook.matcher = some m → checkMatcher amb.regex m ctx = true)
    (hfilter : ∀ f, hook.filter = some f → checkFilter amb.procEnv f ctx = true) :
    executeHook amb invoke dur hook ctx opts = executeHookRun invoke dur hook ctx opts := by
  unfold executeHook
  cases hm : jsStr hook.matcher with
  | none =>
    cases hf : hook.filter with
    | none => simp [henabled]
    | some f => simp [henabled, hfilter f hf]
  | some m =>
    cases hf : hook.filter with
    | none => simp [henabled, hmatcher m hm]
    | some f => simp [henabled, hmatcher m hm, hfilter f hf]

/-- C2: a handler that throws on every attempt under an effective retry
count of 2 is invoked exactly 3 times, with backoff sleeps of 0 ms and
1000 ms; the failure is recorded via `recordError` and `updateStats` with
`success = false`, and the resulting `ExecutionError` propagates to the
caller. -/
theorem c2_retry_exhaustion
    (amb : Ambient) (invoke : Nat → Except String HookResult) (errOf : Nat → String)
    (dur : Nat) (hook : ExecHook) (ctx : HookContext) (opts : ExecOptions)
    (hthrow : ∀ n, invoke n = .error (errOf n))
    (henabled : hook.enabled = true)
    (hmatcher : ∀ m, jsStr hook.matcher = some m → checkMatcher amb.regex m ctx = true)
    (hfilter : ∀ f, hook.filter = some f → checkFilter amb.procEnv f ctx = true)
    (hretry : effectiveRetries opts hook = 2) :
    executeHook amb invoke dur hook ctx opts =
      { result := .error
          { message := "Hook " ++ hook.name ++ " failed after 3 attempts",
            hookId := hook.id, exitCode := 1, stderr := some (errOf 2) },
        statsCalls := [.recordError hook.id (errOf 2),
                       .updateStats hook.id dur false false],
        sleeps := [0, 1000], invocations := 3 } := by
  rw [executeHook_eq_run amb invoke dur hook ctx opts henabled hmatcher hfilter]
  have htrace : runAttempts invoke 2 =
      { result := none, lastError := some (errOf 2),
        invocations := 3, sleeps := [0, 1000] } := by
    unfold runAttempts
    simp [runAttemptsAux, hthrow 0, hthrow 1, hthrow 2]
  simp [executeHookRun, hretry, htrace]
  have hmsg : " failed after " ++ (toString (3 : Nat) ++ " attempts") =
      " failed after 3 attempts" := by rfl
  simp [String.append_assoc, hmsg]

/-- Witness for C2: a concrete always-throwing handler with `retry = 2`. -/
theorem c2_witness :
    executeHook ambLit (fun n => .error ("boom " ++ toString n)) 42
      { id := "H", name := "H", retry := some 2 } { event := .PreToolUse } {} =
      { result := .error
          { message := "Hook H failed after 3 attempts",
            hookId := "H", exitCode := 1, stderr := some "boom 2" },
        statsCalls := [.recordError "H" "boom 2",
                       .updateStats "H" 42 false false],
        sleeps := [0, 1000], invocations := 3 } := by
  have h := c2_retry_exhaustion ambLit (fun n => .error ("boom " ++ toString n))
    (fun n => "boom " ++ toString n) 42 { id := "H", name := "H", retry := some 2 }
    { event := .PreToolUse } {} (fun _ => rfl) rfl
    (by intro m hm; simp [jsStr] at hm) (by intro f hf; simp at hf) rfl
  simpa using h

/-- C3: on a decision event, when the decision backend is missing or its
call throws, `executePrompt` never propagates the failure: it returns a
result with `success = true`, exit code 0 and a `continue` decision whose
reason embeds the failure cause. -/
theorem c3_prompt_fail_open
    (pm : Option (Except String ProviderResult)) (handler : PromptHandler)
    (ctx : HookContext)
    (hdec : decisionEvents.contains ctx.event = true)
    (hfail : pm = none ∨ ∃ e, pm = some (.error e)) :
    (executePrompt pm handler ctx).success = true ∧
    (executePrompt pm handler ctx).exitCode = 0 ∧
    (executePrompt pm handler ctx).output =
      some (.decision "continue" (promptFailReason pm)) := by
  have hdec' : ctx.event ∈ decisionEvents := by simpa using hdec
  rcases hfail with rfl | ⟨e, rfl⟩ <;>
    simp [executePrompt, hdec', promptFailReason]

set_option maxRecDepth 8192 in
/-- Witness for C3: a backend call that throws on a `PostToolUse` decision
event is converted into a successful `continue` outcome. -/
theorem c3_witness :
    (executePrompt (some (.error "backend down")) {} { event := .PostToolUse }).success = true ∧
    (executePrompt (some (.error "backend down")) {} { event := .PostToolUse }).exitCode = 0 ∧
    (executePrompt (some (.error "backend down")) {} { event := .PostToolUse }).output =
      some (.decision "continue" "Prompt handler failed: backend down") := by
  have h := c3_prompt_fail_open (some (.error "backend down")) {}
    { event := .PostToolUse } (by decide) (Or.inr ⟨"backend down", rfl⟩)
  exact ⟨h.1, h.2.1, by rw [h.2.2]; decide⟩

/-- C4: when the handler is actually invoked (no skip) and some attempt
returns a result, the record's `blocked` flag equals membership of the exit
code in the hook's `exitCodeBlocking` set (defaulting to `[2]`),
independently of the result's `success` flag. -/
theorem c4_blocked_flag
    (amb : Ambient) (invoke : Nat → Except String HookResult) (dur : Nat)
    (hook : ExecHook) (ctx : HookContext) (opts : ExecOptions) (r : HookResult)
    (henabled : hook.enabled = true)
    (hmatcher : ∀ m, jsStr hook.matcher = some m → checkMatcher amb.regex m ctx = true)
    (hfilter : ∀ f, hook.filter = some f → checkFilter amb.procEnv f ctx = true)
    (hres : (runAttempts invoke (effectiveRetries opts hook)).result = some r) :
    ∃ rec, (executeHook amb invoke dur hook ctx opts).result = .ok rec ∧
      rec.result = r ∧
      rec.blocked = (hook.exitCodeBlocking.getD [2]).contains r.exitCode := by
  rw [executeHook_eq_run amb invoke dur hook ctx opts henabled hmatcher hfilter]
  unfold executeHookRun
  simp only [hres]
  exact ⟨_, rfl, rfl, rfl⟩

set_option maxRecDepth 8192 in
/-- Witness for C4: a handler returning `success = true`, `exitCode = 2`
under the default blocking set yields `blocked = true`. -/
theorem c4_witness :
    ∃ rec, (executeHook ambLit (fun _ => .ok { success := true, exitCode := 2 }) 7
      { id := "H", name := "H" } { event := .PreToolUse } {}).result = .ok rec ∧
      rec.result = { success := true, exitCode := 2 } ∧
      rec.blocked = true ∧ rec.result.success = true := by
  obtain ⟨rec, h1, h2, h3⟩ := c4_blocked_flag ambLit
    (fun _ => .ok { success := true, exitCode := 2 }) 7
    { id := "H", name := "H" } { event := .PreToolUse } {}
    { success := true, exitCode := 2 } rfl
    (by intro m hm; simp [jsStr] at hm) (by intro f hf; simp at hf) (by decide)
  exact ⟨rec, h1, h2, by rw [h3]; decide, by rw [h2]⟩

/-- C10: a skipped handler (disabled, matcher miss or filter miss) yields a
record with `success = true`, exit code 0, duration 0 and `blocked = false`
(whatever the blocking set says about exit code 0), the supervisor performs
no registry callback and no handler invocation, and replaying its (empty)
callback list against any registry state leaves it unchanged. -/
theorem c10_skip_no_stats
    (amb : Ambient) (invoke : Nat → Except String HookResult) (dur : Nat)
    (hook : ExecHook) (ctx : HookContext) (opts : ExecOptions)
    (hskip : hook.enabled = false ∨
      (∃ m, jsStr hook.matcher = some m ∧ checkMatcher amb.regex m ctx = false) ∨
      (∃ f, hook.filter = some f ∧ checkFilter amb.procEnv f ctx = false)) :
    ∃ rec, (executeHook amb invoke dur hook ctx opts).result = .ok rec ∧
      rec.result.success = true ∧ rec.result.exitCode = 0 ∧
      rec.duration = 0 ∧ rec.blocked = false ∧
      (executeHook amb invoke dur hook ctx opts).statsCalls = [] ∧
      (executeHook amb invoke dur hook ctx opts).invocations = 0 ∧
      (∀ s, applyStatsCalls s (executeHook amb invoke dur hook ctx opts).statsCalls = s) := by
  have main : ∃ msg, executeHook amb invoke dur hook ctx opts =
      { result := .ok (skipRecord hook ctx msg),
        statsCalls := [], sleeps := [], invocations := 0 } := by
    rcases hskip with he | ⟨m, hm, hcm⟩ | ⟨f, hf, hcf⟩
    · exact ⟨"Hook disabled", by simp [executeHook, he]⟩
    · by_cases he : hook.enabled = true
      · exact ⟨"Matcher did not match", by simp [executeHook, he, hm, hcm]⟩
      · exact ⟨"Hook disabled", by simp [executeHook,
          Bool.eq_false_iff.mpr (fun h => he h)]⟩
    · by_cases he : hook.enabled = true
      · by_cases hmskip : (match jsStr hook.matcher with
          | some m => !(checkMatcher amb.regex m ctx)
          | none => false) = true
        · exact ⟨"Matcher did not match", by simp [executeHook, he, hmskip]⟩
        · exact ⟨"Filter did not match", by
            simp only [executeHook, he, Bool.not_true, Bool.false_eq_true,
              if_false, hmskip, if_true, hf, hcf]
            simp⟩
      · exact ⟨"Hook disabled", by simp [executeHook,
          Bool.eq_false_iff.mpr (fun h => he h)]⟩
  obtain ⟨msg, h⟩ := main
  exact ⟨skipRecord hook ctx msg, by rw [h], rfl, rfl, rfl, rfl,
    by rw [h], by rw [h], fun s => by rw [h]; rfl⟩

/-- Witness for C10: a disabled hook whose blocking set is `[0]` is still
reported unblocked with exit code 0 and no statistics effect. -/
theorem c10_witness :
    ∃ rec, (executeHook ambLit (fun _ => .ok { success := true, exitCode := 0 }) 9
      { id := "H", name := "H", enabled := false, exitCodeBlocking := some [0] }
      { event := .PreToolUse } {}).result = .ok rec ∧
      rec.result.success = true ∧ rec.result.exitCode = 0 ∧
      rec.duration = 0 ∧ rec.blocked = false ∧
      (executeHook ambLit (fun _ => .ok { success := true, exitCode := 0 }) 9
        { id := "H", name := "H", enabled := false, exitCodeBlocking := some [0] }
        { event := .PreToolUse } {}).statsCalls = [] ∧
      (executeHook ambLit (fun _ => .ok { success := true, exitCode := 0 }) 9
        { id := "H", name := "H", enabled := false, exitCodeBlocking := some [0] }
        { event := .PreToolUse } {}).invocations = 0 ∧
      (∀ s, applyStatsCalls s (executeHook ambLit
        (fun _ => .ok { success := true, exitCode := 0 }) 9
        { id := "H", name := "H", enabled := false, exitCodeBlocking := some [0] }
        { event := .PreToolUse } {}).statsCalls = s) :=
  c10_skip_no_stats ambLit (fun _ => .ok { success := true, exitCode := 0 }) 9
    { id := "H", name := "H", enabled := false, exitCodeBlocking := some [0] }
    { event := .PreToolUse } {} (Or.inl rfl)

/-- The code's metadata dispatch coincides with the spec's table of
event-specific metadata targets. -/
theorem getMatcherTarget_eq_spec (e : HookEvent)
    (md : Option (List (String × String))) :
    getMatcherTargetForEvent e md = specMetadataTarget e md := by
  cases md <;> cases e <;> rfl

/-- C5 counterexample: on the `Stop` event — which defines no matcher
target — a context carrying `tool = "Bash"` makes the code's matcher check
pass with the literal pattern `"Bash"`, while the spec's event-type-specific
dispatch fails it: `checkMatcher` consults `context.tool` whenever present,
not only for tool-related events. -/
theorem c5_counterexample :
    checkMatcher litRegex "Bash" { event := .Stop, tool := some "Bash" } = true ∧
    specCheckMatcher litRegex "Bash" { event := .Stop, tool := some "Bash" } = false := by
  decide

/-- C5 (amended): for every matcher, context and regex behaviour, the code's
matcher check equals the spec-shaped check with the amended target dispatch:
the tool name is the target whenever the context carries a non-empty tool —
regardless of event type — and only otherwise the event-specific metadata
field; the check fails whenever neither target is available. -/
theorem c5_matcher_amended (ro : RegexOracle) (matcher : String)
    (ctx : HookContext) :
    checkMatcher ro matcher ctx = amendedCheckMatcher ro matcher ctx := by
  unfold checkMatcher amendedCheckMatcher amendedMatcherTarget
  cases h : jsStr ctx.tool <;> simp [h, getMatcherTarget_eq_spec]

/-- C8: in a parallel batch every selected handler contributes exactly one
record, in position: the batch has one record per hook, and the `k`-th
record depends only on the `k`-th hook's own execution — an exhausted
(throwing) supervision is converted into a failed record for that handler
alone, so siblings are never aborted.  In particular the concrete parallel
batch `[H1 throwing, H2 succeeding]` yields exactly 2 records with summary
`failed = 1`, `successful = 1`. -/
theorem c8_parallel_isolation
    (amb : Ambient) (invokeOf : Nat → Nat → Except String HookResult)
    (durOf : Nat → Nat) (ctx : HookContext) (opts : ExecOptions)
    (hooks : List ExecHook) (i : Nat) :
    ((executeHooksPar amb invokeOf durOf ctx opts hooks i).length = hooks.length ∧
     (∀ k, (executeHooksPar amb invokeOf durOf ctx opts hooks i)[k]? =
       (hooks[k]?).map (fun hook =>
         match (executeHook amb (invokeOf (i + k)) (durOf (i + k)) hook ctx opts).result with
         | .ok r => r
         | .error e => caughtRecord hook ctx e.message))) ∧
    ((executeHooks ambLit
        (fun j _ => if j = 0 then .error "boom" else .ok { success := true, exitCode := 0 })
        (fun _ => 1)
        [{ id := "H1", name := "H1" }, { id := "H2", name := "H2" }]
        { event := .PreToolUse } { parallel := true }).results.length = 2 ∧
     (executeHooks ambLit
        (fun j _ => if j = 0 then .error "boom" else .ok { success := true, exitCode := 0 })
        (fun _ => 1)
        [{ id := "H1", name := "H1" }, { id := "H2", name := "H2" }]
        { event := .PreToolUse } { parallel := true }).summary.failed = 1 ∧
     (executeHooks ambLit
        (fun j _ => if j = 0 then .error "boom" else .ok { success := true, exitCode := 0 })
        (fun _ => 1)
        [{ id := "H1", name := "H1" }, { id := "H2", name := "H2" }]
        { event := .PreToolUse } { parallel := true }).summary.successful = 1) := by
  constructor
  · induction hooks generalizing i with
    | nil => exact ⟨rfl, fun k => by simp [executeHooksPar]⟩
    | cons hook rest ih =>
      refine ⟨?_, ?_⟩
      · simpa [executeHooksPar] using (ih (i + 1)).1
      · intro k
        cases k with
        | zero => simp [executeHooksPar]
        | succ k =>
          have h := (ih (i + 1)).2 k
          have harith : i + 1 + k = i + (k + 1) := by omega
          simp only [executeHooksPar, List.getElem?_cons_succ]
          rw [h, harith]
  · refine ⟨?_, ?_, ?_⟩ <;> decide

/-! ### Association-list map lemmas -/

section MapLemmas

variable {κ α : Type} [DecidableEq κ]

theorem mapGet_cons (p : κ × α) (m : List (κ × α)) (k : κ) :
    mapGet (p :: m) k = if p.1 = k then some p.2 else mapGet m k := by
  simp only [mapGet, List.find?_cons]
  by_cases h : p.1 = k
  · simp [h]
  · simp [h, beq_false_of_ne h]

theorem mapHas_eq_isSome (m : List (κ × α)) (k : κ) :
    mapHas m k = (mapGet m k).isSome := by
  induction m with
  | nil => rfl
  | cons p m ih =>
    rw [mapGet_cons]
    by_cases h : p.1 = k
    · simp [mapHas, h]
    · simp only [mapHas, List.any_cons, beq_false_of_ne h, Bool.false_or, if_neg h]
      exact ih

theorem mapGet_eq_none_iff (m : List (κ × α)) (k : κ) :
    mapGet m k = none ↔ k ∉ m.map Prod.fst := by
  induction m with
  | nil => simp [mapGet]
  | cons p m ih =>
    rw [mapGet_cons]
    by_cases h : p.1 = k
    · simp [h]
    · have h' : ¬k = p.1 := fun hc => h hc.symm
      simp [if_neg h, ih, h']

theorem mapGet_mem (m : List (κ × α)) (k : κ) (v : α)
    (hs : mapGet m k = some v) : (k, v) ∈ m := by
  induction m with
  | nil => simp [mapGet] at hs
  | cons p m ih =>
    rw [mapGet_cons] at hs
    rcases p with ⟨pk, pv⟩
    by_cases hk : pk = k
    · rw [if_pos hk] at hs
      injection hs with hs
      subst hk
      subst hs
      exact List.mem_cons_self _ _
    · rw [if_neg hk] at hs
      exact List.mem_cons_of_mem _ (ih hs)

theorem mapHas_false_get_none (m : List (κ × α)) (k : κ)
    (h : mapHas m k = false) : mapGet m k = none := by
  rw [mapHas_eq_isSome] at h
  cases hg : mapGet m k
  · rfl
  · rw [hg] at h; simp at h

theorem mapGet_eq_some_iff (m : List (κ × α)) (k : κ) (v : α)
    (hnd : (m.map Prod.fst).Nodup) : mapGet m k = some v ↔ (k, v) ∈ m := by
  constructor
  · exact mapGet_mem m k v
  · intro hmem
    induction m with
    | nil => simp at hmem
    | cons p m ih =>
      simp only [List.map_cons, List.nodup_cons] at hnd
      rw [mapGet_cons]
      rcases List.mem_cons.mp hmem with rfl | hmem'
      · simp
      · have hk : p.1 ≠ k := by
          intro hk
          exact hnd.1 (hk ▸ (List.mem_map.mpr ⟨(k, v), hmem', rfl⟩))
        rw [if_neg hk]
        exact ih hnd.2 hmem'

theorem mapGet_mapSet_self (m : List (κ × α)) (k : κ) (v : α) :
    mapGet (mapSet m k v) k = some v := by
  induction m with
  | nil => simp [mapSet, mapGet_cons]
  | cons p m ih =>
    simp only [mapSet]
    by_cases h : p.1 = k
    · rw [if_pos h, mapGet_cons, if_pos rfl]
    · rw [if_neg h, mapGet_cons, if_neg h]
      exact ih

theorem mapGet_mapSet_ne (m : List (κ × α)) (k : κ) (v : α) (k' : κ)
    (h : k' ≠ k) : mapGet (mapSet m k v) k' = mapGet m k' := by
  induction m with
  | nil =>
    simp only [mapSet, mapGet_cons, if_neg (fun hc : k = k' => h hc.symm)]
  | cons p m ih =>
    simp only [mapSet]
    by_cases hpk : p.1 = k
    · rw [if_pos hpk, mapGet_cons, mapGet_cons,
        if_neg (fun hc : k = k' => h hc.symm), if_neg (hpk ▸ fun hc => h hc.symm)]
    · rw [if_neg hpk, mapGet_cons, mapGet_cons]
      exact if_congr Iff.rfl rfl ih

theorem keys_mapSet_of_has (m : List (κ × α)) (k : κ) (v : α)
    (h : mapHas m k = true) :
    (mapSet m k v).map Prod.fst = m.map Prod.fst := by
  induction m with
  | nil => simp [mapHas] at h
  | cons p m ih =>
    simp only [mapSet]
    by_cases hpk : p.1 = k
    · rw [if_pos hpk]
      simp [hpk]
    · rw [if_neg hpk]
      simp only [mapHas, List.any_cons, beq_false_of_ne hpk, Bool.false_or] at h
      simp [ih h]

theorem keys_mapSet_of_not_has (m : List (κ × α)) (k : κ) (v : α)
    (h : mapHas m k = false) :
    (mapSet m k v).map Prod.fst = m.map Prod.fst ++ [k] := by
  induction m with
  | nil => rfl
  | cons p m ih =>
    simp only [mapHas, List.any_cons, Bool.or_eq_false_iff] at h
    simp only [mapSet]
    rw [if_neg (by simpa using h.1)]
    simp [ih h.2]

theorem mem_mapSet (m : List (κ × α)) (k : κ) (v : α) (p : κ × α)
    (h : p ∈ mapSet m k v) : p = (k, v) ∨ p ∈ m := by
  induction m with
  | nil => simpa [mapSet] using h
  | cons q m ih =>
    simp only [mapSet] at h
    by_cases hqk : q.1 = k
    · rw [if_pos hqk] at h
      rcases List.mem_cons.mp h with rfl | hm
      · exact Or.inl rfl
      · exact Or.inr (List.mem_cons_of_mem _ hm)
    · rw [if_neg hqk] at h
      rcases List.mem_cons.mp h with rfl | hm
      · exact Or.inr (List.mem_cons_self _ _)
      · rcases ih hm with hkv | hm'
        · exact Or.inl hkv
        · exact Or.inr (List.mem_cons_of_mem _ hm')

theorem mapGet_mapDelete_self (m : List (κ × α)) (k : κ) :
    mapGet (mapDelete m k) k = none := by
  rw [mapGet_eq_none_iff]
  intro hmem
  obtain ⟨p, hp, hpk⟩ := List.mem_map.mp hmem
  unfold mapDelete at hp
  rw [List.mem_filter] at hp
  simp [hpk] at hp

theorem mapGet_mapDelete_ne (m : List (κ × α)) (k k' : κ) (h : k' ≠ k) :
    mapGet (mapDelete m k) k' = mapGet m k' := by
  induction m with
  | nil => rfl
  | cons p m ih =>
    unfold mapDelete
    rw [List.filter_cons]
    by_cases hpk : p.1 = k
    · rw [if_neg (by simp [hpk])]
      rw [mapGet_cons, if_neg (fun hc : p.1 = k' => h ((hpk.symm.trans hc).symm))]
      exact ih
    · rw [if_pos (by simp [hpk])]
      rw [mapGet_cons, mapGet_cons]
      exact if_congr Iff.rfl rfl ih

theorem mem_mapDelete (m : List (κ × α)) (k : κ) (p : κ × α) :
    p ∈ mapDelete m k ↔ p ∈ m ∧ p.1 ≠ k := by
  unfold mapDelete
  rw [List.mem_filter]
  simp

theorem keys_nodup_mapDelete (m : List (κ × α)) (k : κ)
    (h : (m.map Prod.fst).Nodup) : ((mapDelete m k).map Prod.fst).Nodup :=
  ((List.filter_sublist m).map Prod.fst).nodup h

theorem keys_nodup_mapSet (m : List (κ × α)) (k : κ) (v : α)
    (h : (m.map Prod.fst).Nodup) : ((mapSet m k v).map Prod.fst).Nodup := by
  cases hhas : mapHas m k
  · rw [keys_mapSet_of_not_has m k v hhas]
    have hnone := mapHas_false_get_none m k hhas
    rw [mapGet_eq_none_iff] at hnone
    simp [List.nodup_append, h, hnone]
  · rw [keys_mapSet_of_has m k v hhas]
    exact h

theorem isOk_error {ε α : Type} (e : ε) :
    (Except.error e : Except ε α).isOk = false := rfl

theorem isOk_ok {ε α : Type} (a : α) :
    (Except.ok a : Except ε α).isOk = true := rfl

end MapLemmas

/-- C7 counterexample: a fully-formed definition with priority 2000 — far
outside `[0, 1000]` — registers successfully and is stored with that
priority; `register` does not validate the priority range. -/
theorem c7_counterexample :
    (register emptyRegistry
      { id := some "h", name := some "n", events := some [.SessionStart],
        handler := some .command, priority := some 2000 }).isOk = true ∧
    ¬((0 : Int) ≤ 2000 ∧ (2000 : Int) ≤ 1000) ∧
    (applyOp emptyRegistry (.register
      { id := some "h", name := some "n", events := some [.SessionStart],
        handler := some .command, priority := some 2000 })).hooks.map
      (fun p => p.2.priority) = [2000] := by
  refine ⟨?_, by norm_num, ?_⟩ <;> decide

/-- C7 (amended): `register` fails — leaving the store unchanged — exactly
when the id is missing, the name is missing, the events list is missing or
empty, or the handler variant is missing.  An out-of-range priority is NOT
rejected by `register` (the range is enforced only by `updatePriority`). -/
theorem c7_register_validation (s : RegistryState) (cfg : HookConfigIn) :
    ((register s cfg).isOk = false ↔
      (jsStr cfg.id = none ∨ jsStr cfg.name = none ∨ cfg.events.getD [] = [] ∨
        cfg.handler = none)) ∧
    ((register s cfg).isOk = false → applyOp s (.register cfg) = s) := by
  constructor
  · unfold register
    by_cases h1 : (jsStr cfg.id).isNone
    · simp [h1, isOk_error, Option.isNone_iff_eq_none.mp h1]
    · by_cases h2 : (jsStr cfg.name).isNone
      · simp [h1, h2, isOk_error, Option.isNone_iff_eq_none.mp h2]
      · by_cases h3 : cfg.events.getD [] = []
        · simp [h1, h2, h3, isOk_error]
        · by_cases h4 : cfg.handler.isNone
          · simp [h1, h2, h3, h4, isOk_error, Option.isNone_iff_eq_none.mp h4]
          · rw [if_neg h1, if_neg h2, if_neg h3, if_neg h4, isOk_ok]
            simp only [Option.isNone_iff_eq_none] at h1 h2 h4
            simp [h1, h2, h3, h4]
  · intro h
    cases hreg : register s cfg with
    | ok s' => rw [hreg, isOk_ok] at h; exact absurd h (by simp)
    | error e => simp [applyOp, hreg, Except.toOption]

/-! ### Event-index lemmas -/

theorem mapGet_indexPush_self (idx : List (HookEvent × List String))
    (e : HookEvent) (i : String) :
    mapGet (indexPush idx e i) e = some ((mapGet idx e).getD [] ++ [i]) := by
  unfold indexPush
  cases h : mapGet idx e with
  | some ids => rw [mapGet_mapSet_self]; simp
  | none => rw [mapGet_mapSet_self]; simp

theorem mapGet_indexPush_ne (idx : List (HookEvent × List String))
    (e : HookEvent) (i : String) (e' : HookEvent) (h : e' ≠ e) :
    mapGet (indexPush idx e i) e' = mapGet idx e' := by
  unfold indexPush
  cases hg : mapGet idx e <;> rw [mapGet_mapSet_ne _ _ _ _ h]

theorem keys_nodup_indexPush (idx : List (HookEvent × List String))
    (e : HookEvent) (i : String) (h : (idx.map Prod.fst).Nodup) :
    ((indexPush idx e i).map Prod.fst).Nodup := by
  unfold indexPush
  cases mapGet idx e <;> exact keys_nodup_mapSet _ _ _ h

theorem foldl_indexPush_get (i : String) (events : List HookEvent)
    (hnd : events.Nodup) (idx : List (HookEvent × List String)) (e : HookEvent) :
    mapGet (events.foldl (fun idx e => indexPush idx e i) idx) e =
      if e ∈ events then some ((mapGet idx e).getD [] ++ [i]) else mapGet idx e := by
  induction events generalizing idx with
  | nil => simp
  | cons e0 rest ih =>
    simp only [List.foldl_cons]
    simp only [List.nodup_cons] at hnd
    by_cases he : e = e0
    · subst he
      rw [ih hnd.2, if_neg (fun hc => hnd.1 hc), mapGet_indexPush_self,
        if_pos (List.mem_cons_self _ _)]
    · rw [ih hnd.2]
      by_cases hr : e ∈ rest
      · rw [if_pos hr, if_pos (List.mem_cons_of_mem _ hr),
          mapGet_indexPush_ne _ _ _ _ he]
      · rw [if_neg hr, if_neg (by simp [he, hr]), mapGet_indexPush_ne _ _ _ _ he]

theorem foldl_indexPush_keys_nodup (i : String) (events : List HookEvent)
    (idx : List (HookEvent × List String)) (h : (idx.map Prod.fst).Nodup) :
    (((events.foldl (fun idx e => indexPush idx e i) idx)).map Prod.fst).Nodup := by
  induction events generalizing idx with
  | nil => exact h
  | cons e0 rest ih => exact ih _ (keys_nodup_indexPush _ _ _ h)

theorem mapGet_indexRemove_self (idx : List (HookEvent × List String))
    (e : HookEvent) (i : String) :
    mapGet (indexRemove idx e i) e =
      (match mapGet idx e with
       | some ids => if (ids.erase i).isEmpty then none else some (ids.erase i)
       | none => none) := by
  unfold indexRemove
  cases h : mapGet idx e with
  | some ids =>
    by_cases he : (ids.erase i).isEmpty
    · simp [he, mapGet_mapDelete_self]
    · simp [he, mapGet_mapSet_self]
  | none => simpa using h

theorem mapGet_indexRemove_ne (idx : List (HookEvent × List String))
    (e : HookEvent) (i : String) (e' : HookEvent) (h : e' ≠ e) :
    mapGet (indexRemove idx e i) e' = mapGet idx e' := by
  unfold indexRemove
  cases hg : mapGet idx e with
  | some ids =>
    by_cases he : (ids.erase i).isEmpty
    · simp [he, mapGet_mapDelete_ne _ _ _ h]
    · simp [he, mapGet_mapSet_ne _ _ _ _ h]
  | none => rfl

theorem keys_nodup_indexRemove (idx : List (HookEvent × List String))
    (e : HookEvent) (i : String) (h : (idx.map Prod.fst).Nodup) :
    ((indexRemove idx e i).map Prod.fst).Nodup := by
  unfold indexRemove
  cases mapGet idx e with
  | some ids =>
    by_cases he : (ids.erase i).isEmpty
    · simp only [he, if_true]
      exact keys_nodup_mapDelete _ _ h
    · simp only [he, if_false]
      exact keys_nodup_mapSet _ _ _ h
  | none => exact h

theorem foldl_indexRemove_get (i : String) (events : List HookEvent)
    (hnd : events.Nodup) (idx : List (HookEvent × List String)) (e : HookEvent) :
    mapGet (events.foldl (fun idx e => indexRemove idx e i) idx) e =
      if e ∈ events then
        (match mapGet idx e with
         | some ids => if (ids.erase i).isEmpty then none else some (ids.erase i)
         | none => none)
      else mapGet idx e := by
  induction events generalizing idx with
  | nil => simp
  | cons e0 rest ih =>
    simp only [List.foldl_cons]
    simp only [List.nodup_cons] at hnd
    by_cases he : e = e0
    · subst he
      rw [ih hnd.2, if_neg (fun hc => hnd.1 hc), mapGet_indexRemove_self,
        if_pos (List.mem_cons_self _ _)]
    · rw [ih hnd.2]
      by_cases hr : e ∈ rest
      · rw [if_pos hr, if_pos (List.mem_cons_of_mem _ hr),
          mapGet_indexRemove_ne _ _ _ _ he]
      · rw [if_neg hr, if_neg (by simp [he, hr]), mapGet_indexRemove_ne _ _ _ _ he]

theorem foldl_indexRemove_keys_nodup (i : String) (events : List HookEvent)
    (idx : List (HookEvent × List String)) (h : (idx.map Prod.fst).Nodup) :
    (((events.foldl (fun idx e => indexRemove idx e i) idx)).map Prod.fst).Nodup := by
  induction events generalizing idx with
  | nil => exact h
  | cons e0 rest ih => exact ih _ (keys_nodup_indexRemove _ _ _ h)

/-! ### `getHooksForEvent` characterization -/

theorem mem_getHooksForEvent (s : RegistryState) (e : HookEvent) (h : RegHook) :
    h ∈ getHooksForEvent s e ↔
      (∃ i ∈ (mapGet s.eventIndex e).getD [], mapGet s.hooks i = some h) ∧
        h.enabled = true := by
  unfold getHooksForEvent sortByPriority
  rw [(List.mergeSort_perm _ _).mem_iff, List.mem_filter, List.mem_filterMap]

theorem sorted_getHooksForEvent (s : RegistryState) (e : HookEvent) :
    (getHooksForEvent s e).Pairwise (fun a b => a.priority ≤ b.priority) := by
  unfold getHooksForEvent sortByPriority
  have hs := @List.sorted_mergeSort RegHook
    (fun a b : RegHook => decide (a.priority ≤ b.priority))
    (fun a b c hab hbc => by
      simp only [decide_eq_true_eq] at *
      omega)
    (fun a b => by
      simp only [Bool.or_eq_true, decide_eq_true_eq]
      omega)
    (((((mapGet s.eventIndex e).getD []).filterMap
      (fun i => mapGet s.hooks i)).filter (fun h => h.enabled)))
  exact hs.imp (fun hab => by simpa using hab)

/-! ### Store well-formedness preservation -/


theorem mem_mapSet_of_mem_ne {κ α : Type} [DecidableEq κ]
    (m : List (κ × α)) (k : κ) (v : α) (p : κ × α)
    (hp : p ∈ m) (hne : p.1 ≠ k) : p ∈ mapSet m k v := by
  induction m with
  | nil => simp at hp
  | cons q m ih =>
    simp only [mapSet]
    rcases List.mem_cons.mp hp with hpq | hm
    · subst hpq
      rw [if_neg hne]
      exact List.mem_cons_self _ _
    · by_cases hqk : q.1 = k
      · rw [if_pos hqk]
        exact List.mem_cons_of_mem _ hm
      · rw [if_neg hqk]
        exact List.mem_cons_of_mem _ (ih hm)

theorem mapSet_mem_self {κ α : Type} [DecidableEq κ]
    (m : List (κ × α)) (k : κ) (v : α) : (k, v) ∈ mapSet m k v :=
  mapGet_mem _ _ _ (mapGet_mapSet_self m k v)

/-- The hook stored behind a `mapGet` satisfies the per-hook part of
`StoreWF`. -/
theorem storeWF_get_hook (s : RegistryState) (hwf : StoreWF s)
    (i : String) (h : RegHook) (hget : mapGet s.hooks i = some h) :
    h.id = i ∧ h.events ≠ [] ∧ h.events.Nodup ∧
      0 ≤ h.priority ∧ h.priority ≤ 1000 :=
  hwf.2.2.1 _ (mapGet_mem _ _ _ hget)

/-- A member of the hooks map with a given key is determined by `mapGet`
when keys are duplicate-free. -/
theorem mem_hooks_eq_get (s : RegistryState) (hknd : (s.hooks.map Prod.fst).Nodup)
    (p : String × RegHook) (hp : p ∈ s.hooks) : mapGet s.hooks p.1 = some p.2 := by
  rcases p with ⟨pk, pv⟩
  exact (mapGet_eq_some_iff s.hooks pk pv hknd).mpr hp

/-- `enable`, `disable` and `updatePriority` only replace one hook in place,
keeping its id and events; they preserve well-formedness provided the new
priority is in range. -/
theorem replaceHook_preserves_wf (s : RegistryState) (i : String)
    (hook newHook : RegHook) (hwf : StoreWF s)
    (hget : mapGet s.hooks i = some hook)
    (hid : newHook.id = hook.id) (hev : newHook.events = hook.events)
    (hpr : 0 ≤ newHook.priority ∧ newHook.priority ≤ 1000)
    (idx' : List (HookEvent × List String)) :
    StoreWF { s with hooks := mapSet s.hooks i newHook, priorityIndex := idx' } := by
  obtain ⟨hknd, hend, hprops, hidx, hlink⟩ := hwf
  have hhp := hprops _ (mapGet_mem _ _ _ hget)
  simp only at hhp
  refine ⟨?_, hend, ?_, ?_, ?_⟩
  · exact keys_nodup_mapSet _ _ _ hknd
  · intro p hp
    rcases mem_mapSet _ _ _ _ hp with hpkv | hm
    · subst hpkv
      refine ⟨?_, ?_, ?_, hpr.1, hpr.2⟩
      · simp only
        rw [hid, hhp.1]
      · simp only
        rw [hev]
        exact hhp.2.1
      · simp only
        rw [hev]
        exact hhp.2.2.1
    · exact hprops _ hm
  · intro q hq
    obtain ⟨hqnd, hqlink⟩ := hidx q hq
    refine ⟨hqnd, fun i' hi' => ?_⟩
    obtain ⟨p, hp, hpi, hpe⟩ := hqlink i' hi'
    by_cases hii : p.1 = i
    · have hgetp := mem_hooks_eq_get s hknd p hp
      rw [hii, hget] at hgetp
      have hph : p.2 = hook := (Option.some_inj.mp hgetp).symm
      refine ⟨(i, newHook), mapSet_mem_self _ _ _, by simpa using hii ▸ hpi, ?_⟩
      simp only
      rw [hev, ← hph]
      exact hpe
    · exact ⟨p, mem_mapSet_of_mem_ne _ _ _ _ hp hii, hpi, hpe⟩
  · intro p hp e he
    rcases mem_mapSet _ _ _ _ hp with hpkv | hm
    · subst hpkv
      simp only at he
      rw [hev] at he
      obtain ⟨q, hq, hq1, hqmem⟩ := hlink _ (mapGet_mem _ _ _ hget) e he
      simp only at hqmem
      exact ⟨q, hq, hq1, hqmem⟩
    · exact hlink _ hm e he

theorem enable_eq (s : RegistryState) (i : String) (hook : RegHook)
    (hget : mapGet s.hooks i = some hook) :
    enable s i = .ok
      { s with hooks := mapSet s.hooks i { hook with enabled := true },
               priorityIndex := rebuildPriorityIndex
                 (mapSet s.hooks i { hook with enabled := true }) s.eventIndex } := by
  unfold enable
  simp only [hget]

theorem disable_eq (s : RegistryState) (i : String) (hook : RegHook)
    (hget : mapGet s.hooks i = some hook) :
    disable s i = .ok
      { s with hooks := mapSet s.hooks i { hook with enabled := false },
               priorityIndex := rebuildPriorityIndex
                 (mapSet s.hooks i { hook with enabled := false }) s.eventIndex } := by
  unfold disable
  simp only [hget]

theorem updatePriority_eq (s : RegistryState) (i : String) (priority : Int)
    (hook : RegHook) (hget : mapGet s.hooks i = some hook)
    (hr : ¬(priority < 0 ∨ priority > 1000)) :
    updatePriority s i priority = .ok
      { s with hooks := mapSet s.hooks i { hook with priority := priority },
               priorityIndex := rebuildPriorityIndex
                 (mapSet s.hooks i { hook with priority := priority }) s.eventIndex } := by
  unfold updatePriority
  simp only [hget, if_neg hr]

theorem enable_preserves_wf (s : RegistryState) (i : String)
    (s' : RegistryState) (hwf : StoreWF s) (h : enable s i = .ok s') :
    StoreWF s' := by
  cases hget : mapGet s.hooks i with
  | none =>
    unfold enable at h
    rw [hget] at h
    exact absurd h (by simp)
  | some hook =>
    rw [enable_eq s i hook hget] at h
    obtain rfl := Except.ok.inj h
    have hhp := storeWF_get_hook s hwf i hook hget
    exact replaceHook_preserves_wf s i hook { hook with enabled := true }
      hwf hget rfl rfl ⟨hhp.2.2.2.1, hhp.2.2.2.2⟩ _

theorem disable_preserves_wf (s : RegistryState) (i : String)
    (s' : RegistryState) (hwf : StoreWF s) (h : disable s i = .ok s') :
    StoreWF s' := by
  cases hget : mapGet s.hooks i with
  | none =>
    unfold disable at h
    rw [hget] at h
    exact absurd h (by simp)
  | some hook =>
    rw [disable_eq s i hook hget] at h
    obtain rfl := Except.ok.inj h
    have hhp := storeWF_get_hook s hwf i hook hget
    exact replaceHook_preserves_wf s i hook { hook with enabled := false }
      hwf hget rfl rfl ⟨hhp.2.2.2.1, hhp.2.2.2.2⟩ _

theorem updatePriority_preserves_wf (s : RegistryState) (i : String)
    (priority : Int) (s' : RegistryState) (hwf : StoreWF s)
    (h : updatePriority s i priority = .ok s') : StoreWF s' := by
  cases hget : mapGet s.hooks i with
  | none =>
    unfold updatePriority at h
    rw [hget] at h
    exact absurd h (by simp)
  | some hook =>
    by_cases hr : priority < 0 ∨ priority > 1000
    · unfold updatePriority at h
      simp only [hget, if_pos hr] at h
      exact absurd h (by simp)
    · rw [updatePriority_eq s i priority hook hget hr] at h
      obtain rfl := Except.ok.inj h
      push_neg at hr
      exact replaceHook_preserves_wf s i hook { hook with priority := priority }
        hwf hget rfl rfl ⟨hr.1, hr.2⟩ _

theorem register_preserves_wf (s : RegistryState) (cfg : HookConfigIn)
    (s' : RegistryState) (hwf : StoreWF s)
    (hok : okOp s (.register cfg) = true)
    (hreg : register s cfg = .ok s') : StoreWF s' := by
  obtain ⟨hknd, hend, hprops, hidx, hlink⟩ := hwf
  unfold register at hreg
  by_cases h1 : (jsStr cfg.id).isNone
  · rw [if_pos h1] at hreg
    exact absurd hreg (by simp)
  rw [if_neg h1] at hreg
  by_cases h2 : (jsStr cfg.name).isNone
  · rw [if_pos h2] at hreg
    exact absurd hreg (by simp)
  rw [if_neg h2] at hreg
  by_cases h3 : cfg.events.getD [] = []
  · rw [if_pos h3] at hreg
    exact absurd hreg (by simp)
  rw [if_neg h3] at hreg
  by_cases h4 : cfg.handler.isNone
  · rw [if_pos h4] at hreg
    exact absurd hreg (by simp)
  rw [if_neg h4] at hreg
  cases hid : jsStr cfg.id with
  | none => rw [hid] at h1; simp at h1
  | some iD =>
  rw [hid] at hreg
  simp only [Option.getD_some] at hreg
  simp only [okOp, hid, Bool.and_eq_true] at hok
  obtain ⟨⟨⟨ha, hb⟩, hc⟩, hd⟩ := hok
  have hfreshB : mapHas s.hooks iD = false := by simpa using ha
  have hndev : (cfg.events.getD []).Nodup := of_decide_eq_true hb
  have hpr0 : 0 ≤ jsOrInt cfg.priority 50 := of_decide_eq_true hc
  have hpr1 : jsOrInt cfg.priority 50 ≤ 1000 := of_decide_eq_true hd
  have hkfresh : mapGet s.hooks iD = none := mapHas_false_get_none _ _ hfreshB
  have hkfresh' : iD ∉ s.hooks.map Prod.fst := (mapGet_eq_none_iff _ _).mp hkfresh
  obtain rfl := Except.ok.inj hreg
  refine ⟨keys_nodup_mapSet _ _ _ hknd,
    foldl_indexPush_keys_nodup _ _ _ hend, ?_, ?_, ?_⟩
  · intro p hp
    rcases mem_mapSet _ _ _ _ hp with hpkv | hm
    · subst hpkv
      exact ⟨rfl, h3, hndev, hpr0, hpr1⟩
    · exact hprops _ hm
  · intro q hq
    have hqget : mapGet (List.foldl (fun idx e => indexPush idx e iD)
        s.eventIndex (cfg.events.getD [])) q.1 = some q.2 := by
      rcases q with ⟨qe, qids⟩
      exact (mapGet_eq_some_iff _ _ _
        (foldl_indexPush_keys_nodup _ _ _ hend)).mpr hq
    rw [foldl_indexPush_get iD _ hndev] at hqget
    by_cases hqe : q.1 ∈ cfg.events.getD []
    · rw [if_pos hqe] at hqget
      have hq2 : q.2 = (mapGet s.eventIndex q.1).getD [] ++ [iD] :=
        (Option.some_inj.mp hqget).symm
      have hold : ((mapGet s.eventIndex q.1).getD []).Nodup ∧
          ∀ i' ∈ (mapGet s.eventIndex q.1).getD [],
            ∃ p ∈ s.hooks, p.1 = i' ∧ q.1 ∈ p.2.events := by
        cases hg : mapGet s.eventIndex q.1 with
        | none => simp
        | some ids =>
          have hmem := mapGet_mem _ _ _ hg
          obtain ⟨hnd, hl⟩ := hidx _ hmem
          simp only [Option.getD_some]
          exact ⟨hnd, hl⟩
      have hfreshidx : iD ∉ (mapGet s.eventIndex q.1).getD [] := by
        intro hmem
        obtain ⟨p, hp, hpi, _⟩ := hold.2 iD hmem
        exact hkfresh' (hpi ▸ List.mem_map.mpr ⟨p, hp, rfl⟩)
      constructor
      · rw [hq2]
        simp [List.nodup_append, hold.1, hfreshidx]
      · intro i' hi'
        rw [hq2] at hi'
        rcases List.mem_append.mp hi' with hiold | hinew
        · obtain ⟨p, hp, hpi, hpe⟩ := hold.2 i' hiold
          have hne : p.1 ≠ iD := fun hc =>
            hkfresh' (hc ▸ List.mem_map.mpr ⟨p, hp, rfl⟩)
          exact ⟨p, mem_mapSet_of_mem_ne _ _ _ _ hp hne, hpi, hpe⟩
        · have hiD : i' = iD := by simpa using hinew
          subst hiD
          exact ⟨_, mapSet_mem_self _ _ _, rfl, hqe⟩
    · rw [if_neg hqe] at hqget
      have hmem := mapGet_mem _ _ _ hqget
      obtain ⟨hnd, hl⟩ := hidx _ hmem
      refine ⟨hnd, fun i' hi' => ?_⟩
      obtain ⟨p, hp, hpi, hpe⟩ := hl i' hi'
      have hne : p.1 ≠ iD := fun hc =>
        hkfresh' (hc ▸ List.mem_map.mpr ⟨p, hp, rfl⟩)
      exact ⟨p, mem_mapSet_of_mem_ne _ _ _ _ hp hne, hpi, hpe⟩
  · intro p hp e he
    rcases mem_mapSet _ _ _ _ hp with hpkv | hm
    · subst hpkv
      have hgete : mapGet (List.foldl (fun idx e => indexPush idx e iD)
          s.eventIndex (cfg.events.getD [])) e =
          some ((mapGet s.eventIndex e).getD [] ++ [iD]) := by
        rw [foldl_indexPush_get iD _ hndev, if_pos he]
      exact ⟨_, mapGet_mem _ _ _ hgete, rfl, by simp⟩
    · obtain ⟨q0, hq0, hq01, hq0mem⟩ := hlink _ hm e he
      have hq0get : mapGet s.eventIndex e = some q0.2 := by
        rcases q0 with ⟨q0e, q0ids⟩
        simp only at hq01
        subst hq01
        exact (mapGet_eq_some_iff _ _ _ hend).mpr hq0
      by_cases hee : e ∈ cfg.events.getD []
      · have hge : mapGet (List.foldl (fun idx e => indexPush idx e iD)
            s.eventIndex (cfg.events.getD [])) e = some (q0.2 ++ [iD]) := by
          rw [foldl_indexPush_get iD _ hndev, if_pos hee, hq0get]
          rfl
        exact ⟨_, mapGet_mem _ _ _ hge, rfl, List.mem_append_left _ hq0mem⟩
      · have hge : mapGet (List.foldl (fun idx e => indexPush idx e iD)
            s.eventIndex (cfg.events.getD [])) e = some q0.2 := by
          rw [foldl_indexPush_get iD _ hndev, if_neg hee, hq0get]
        exact ⟨_, mapGet_mem _ _ _ hge, rfl, hq0mem⟩

theorem unregister_preserves_wf (s : RegistryState) (i : String)
    (s' : RegistryState) (hwf : StoreWF s)
    (h : unregister s i = .ok s') : StoreWF s' := by
  obtain ⟨hknd, hend, hprops, hidx, hlink⟩ := hwf
  cases hget : mapGet s.hooks i with
  | none =>
    unfold unregister at h
    rw [hget] at h
    exact absurd h (by simp)
  | some hook =>
    have heq : unregister s i = .ok
        { hooks := mapDelete s.hooks i,
          eventIndex := hook.events.foldl (fun idx e => indexRemove idx e i)
            s.eventIndex,
          priorityIndex := rebuildPriorityIndex (mapDelete s.hooks i)
            (hook.events.foldl (fun idx e => indexRemove idx e i) s.eventIndex),
          stats := mapDelete s.stats i } := by
      unfold unregister
      simp only [hget]
    rw [heq] at h
    obtain rfl := Except.ok.inj h
    have hhook := hprops _ (mapGet_mem _ _ _ hget)
    have hndhe : hook.events.Nodup := hhook.2.2.1
    refine ⟨keys_nodup_mapDelete _ _ hknd,
      foldl_indexRemove_keys_nodup _ _ _ hend, ?_, ?_, ?_⟩
    · intro p hp
      exact hprops _ ((mem_mapDelete _ _ _).mp hp).1
    · intro q hq
      have hqget : mapGet (hook.events.foldl (fun idx e => indexRemove idx e i)
          s.eventIndex) q.1 = some q.2 := by
        rcases q with ⟨qe, qids⟩
        exact (mapGet_eq_some_iff _ _ _
          (foldl_indexRemove_keys_nodup _ _ _ hend)).mpr hq
      rw [foldl_indexRemove_get i _ hndhe] at hqget
      by_cases hqe : q.1 ∈ hook.events
      · rw [if_pos hqe] at hqget
        cases hg : mapGet s.eventIndex q.1 with
        | none => rw [hg] at hqget; simp at hqget
        | some ids =>
          simp only [hg] at hqget
          obtain ⟨hndids, hlids⟩ := hidx _ (mapGet_mem _ _ _ hg)
          by_cases hemp : (ids.erase i).isEmpty
          · rw [if_pos hemp] at hqget
            simp at hqget
          · rw [if_neg hemp] at hqget
            have hq2 : q.2 = ids.erase i := (Option.some_inj.mp hqget).symm
            constructor
            · rw [hq2]
              exact List.Nodup.erase i hndids
            · intro i' hi'
              rw [hq2] at hi'
              obtain ⟨hii, hmem⟩ := (List.Nodup.mem_erase_iff hndids).mp hi'
              obtain ⟨p, hp, hpi, hpe⟩ := hlids i' hmem
              exact ⟨p, (mem_mapDelete _ _ _).mpr ⟨hp, hpi ▸ hii⟩, hpi, hpe⟩
      · rw [if_neg hqe] at hqget
        obtain ⟨hnd, hl⟩ := hidx _ (mapGet_mem _ _ _ hqget)
        refine ⟨hnd, fun i' hi' => ?_⟩
        obtain ⟨p, hp, hpi, hpe⟩ := hl i' hi'
        have hii : p.1 ≠ i := by
          intro hc
          have hge := mem_hooks_eq_get s hknd p hp
          rw [hc, hget] at hge
          have hph : p.2 = hook := (Option.some_inj.mp hge).symm
          exact hqe (hph ▸ hpe)
        exact ⟨p, (mem_mapDelete _ _ _).mpr ⟨hp, hii⟩, hpi, hpe⟩
    · intro p hp e he
      obtain ⟨hpmem, hpne⟩ := (mem_mapDelete _ _ _).mp hp
      obtain ⟨q0, hq0, hq01, hq0mem⟩ := hlink _ hpmem e he
      have hq0get : mapGet s.eventIndex e = some q0.2 := by
        rcases q0 with ⟨q0e, q0ids⟩
        simp only at hq01
        subst hq01
        exact (mapGet_eq_some_iff _ _ _ hend).mpr hq0
      by_cases hee : e ∈ hook.events
      · have hmem' : p.1 ∈ q0.2.erase i := (List.mem_erase_of_ne hpne).mpr hq0mem
        have hne : ¬(q0.2.erase i).isEmpty := by
          intro hc
          rw [List.isEmpty_iff] at hc
          rw [hc] at hmem'
          simp at hmem'
        have hge : mapGet (hook.events.foldl (fun idx e => indexRemove idx e i)
            s.eventIndex) e = some (q0.2.erase i) := by
          rw [foldl_indexRemove_get i _ hndhe, if_pos hee]
          simp only [hq0get]
          rw [if_neg hne]
        exact ⟨_, mapGet_mem _ _ _ hge, rfl, hmem'⟩
      · have hge : mapGet (hook.events.foldl (fun idx e => indexRemove idx e i)
            s.eventIndex) e = some q0.2 := by
          rw [foldl_indexRemove_get i _ hndhe, if_neg hee]
          exact hq0get
        exact ⟨_, mapGet_mem _ _ _ hge, rfl, hq0mem⟩


theorem mem_mapSet_nodup {κ α : Type} [DecidableEq κ]
    (m : List (κ × α)) (k : κ) (v : α) (p : κ × α)
    (hnd : (m.map Prod.fst).Nodup)
    (h : p ∈ mapSet m k v) : p = (k, v) ∨ (p ∈ m ∧ p.1 ≠ k) := by
  induction m with
  | nil => left; simpa [mapSet] using h
  | cons q m ih =>
    simp only [List.map_cons, List.nodup_cons] at hnd
    simp only [mapSet] at h
    by_cases hqk : q.1 = k
    · rw [if_pos hqk] at h
      rcases List.mem_cons.mp h with hkv | hm
      · exact Or.inl hkv
      · right
        refine ⟨List.mem_cons_of_mem _ hm, fun hc => ?_⟩
        exact hnd.1 (hqk ▸ hc ▸ List.mem_map.mpr ⟨p, hm, rfl⟩)
    · rw [if_neg hqk] at h
      rcases List.mem_cons.mp h with hkv | hm
      · subst hkv
        exact Or.inr ⟨List.mem_cons_self _ _, hqk⟩
      · rcases ih hnd.2 hm with h1 | ⟨h2a, h2b⟩
        · exact Or.inl h1
        · exact Or.inr ⟨List.mem_cons_of_mem _ h2a, h2b⟩

theorem updateEvents_preserves_wf (s : RegistryState) (i : String)
    (evs : List HookEvent) (s' : RegistryState) (hwf : StoreWF s)
    (hok : okOp s (.updateEvents i evs) = true)
    (h : updateEvents s i evs = .ok s') : StoreWF s' := by
  obtain ⟨hknd, hend, hprops, hidx, hlink⟩ := hwf
  have hokev : evs.Nodup := by
    simp only [okOp] at hok
    exact of_decide_eq_true hok
  cases hget : mapGet s.hooks i with
  | none =>
    unfold updateEvents at h
    rw [hget] at h
    exact absurd h (by simp)
  | some hook =>
    by_cases hne : evs = []
    · unfold updateEvents at h
      simp only [hget, if_pos hne] at h
      exact absurd h (by simp)
    · have heq : updateEvents s i evs = .ok
          { hooks := mapSet s.hooks i { hook with events := evs },
            eventIndex := evs.foldl (fun idx e => indexPush idx e i)
              (hook.events.foldl (fun idx e => indexRemove idx e i) s.eventIndex),
            priorityIndex := rebuildPriorityIndex
              (mapSet s.hooks i { hook with events := evs })
              (evs.foldl (fun idx e => indexPush idx e i)
                (hook.events.foldl (fun idx e => indexRemove idx e i) s.eventIndex)),
            stats := s.stats } := by
        unfold updateEvents
        simp only [hget, if_neg hne]
      rw [heq] at h
      obtain rfl := Except.ok.inj h
      have hhook := hprops _ (mapGet_mem _ _ _ hget)
      simp only at hhook
      have hndhe : hook.events.Nodup := hhook.2.2.1
      have hKR : ((hook.events.foldl (fun idx e => indexRemove idx e i)
          s.eventIndex).map Prod.fst).Nodup :=
        foldl_indexRemove_keys_nodup _ _ _ hend
      have hF1 : ∀ e' ids', mapGet (hook.events.foldl
          (fun idx e => indexRemove idx e i) s.eventIndex) e' = some ids' →
          ids'.Nodup ∧ i ∉ ids' ∧
            ∀ i' ∈ ids', ∃ p ∈ s.hooks, p.1 = i' ∧ e' ∈ p.2.events := by
        intro e' ids' hg'
        rw [foldl_indexRemove_get i _ hndhe] at hg'
        by_cases hee : e' ∈ hook.events
        · rw [if_pos hee] at hg'
          cases hg : mapGet s.eventIndex e' with
          | none => rw [hg] at hg'; simp at hg'
          | some ids =>
            simp only [hg] at hg'
            obtain ⟨hndids, hlids⟩ := hidx _ (mapGet_mem _ _ _ hg)
            by_cases hemp : (ids.erase i).isEmpty
            · rw [if_pos hemp] at hg'
              simp at hg'
            · rw [if_neg hemp] at hg'
              have hq2 : ids' = ids.erase i := (Option.some_inj.mp hg').symm
              subst hq2
              refine ⟨List.Nodup.erase i hndids,
                List.Nodup.not_mem_erase hndids, ?_⟩
              intro i' hi'
              obtain ⟨hii, hmem⟩ := (List.Nodup.mem_erase_iff hndids).mp hi'
              exact hlids i' hmem
        · rw [if_neg hee] at hg'
          obtain ⟨hnd, hl⟩ := hidx _ (mapGet_mem _ _ _ hg')
          refine ⟨hnd, ?_, hl⟩
          intro hmem
          obtain ⟨p, hp, hpi, hpe⟩ := hl i hmem
          have hgp := mem_hooks_eq_get s hknd p hp
          rw [hpi, hget] at hgp
          exact hee (((Option.some_inj.mp hgp).symm : p.2 = hook) ▸ hpe)
      have hF2 : ∀ p ∈ s.hooks, p.1 ≠ i → ∀ e ∈ p.2.events,
          ∃ ids', mapGet (hook.events.foldl (fun idx e => indexRemove idx e i)
            s.eventIndex) e = some ids' ∧ p.1 ∈ ids' := by
        intro p hp hpne e he
        obtain ⟨q0, hq0, hq01, hq0mem⟩ := hlink _ hp e he
        have hq0get : mapGet s.eventIndex e = some q0.2 := by
          rcases q0 with ⟨q0e, q0ids⟩
          simp only at hq01
          subst hq01
          exact (mapGet_eq_some_iff _ _ _ hend).mpr hq0
        by_cases hee : e ∈ hook.events
        · have hmem' : p.1 ∈ q0.2.erase i :=
            (List.mem_erase_of_ne hpne).mpr hq0mem
          have hnemp : ¬(q0.2.erase i).isEmpty := by
            intro hc
            rw [List.isEmpty_iff] at hc
            rw [hc] at hmem'
            simp at hmem'
          refine ⟨q0.2.erase i, ?_, hmem'⟩
          rw [foldl_indexRemove_get i _ hndhe, if_pos hee]
          simp only [hq0get]
          rw [if_neg hnemp]
        · refine ⟨q0.2, ?_, hq0mem⟩
          rw [foldl_indexRemove_get i _ hndhe, if_neg hee]
          exact hq0get
      refine ⟨keys_nodup_mapSet _ _ _ hknd,
        foldl_indexPush_keys_nodup _ _ _ hKR, ?_, ?_, ?_⟩
      · intro p hp
        rcases mem_mapSet _ _ _ _ hp with hpkv | hm
        · subst hpkv
          exact ⟨hhook.1, hne, hokev, hhook.2.2.2.1, hhook.2.2.2.2⟩
        · exact hprops _ hm
      · intro q hq
        have hqget : mapGet (evs.foldl (fun idx e => indexPush idx e i)
            (hook.events.foldl (fun idx e => indexRemove idx e i)
              s.eventIndex)) q.1 = some q.2 := by
          rcases q with ⟨qe, qids⟩
          exact (mapGet_eq_some_iff _ _ _
            (foldl_indexPush_keys_nodup _ _ _ hKR)).mpr hq
        rw [foldl_indexPush_get i _ hokev] at hqget
        by_cases hqe : q.1 ∈ evs
        · rw [if_pos hqe] at hqget
          have hq2 : q.2 = (mapGet (hook.events.foldl
              (fun idx e => indexRemove idx e i) s.eventIndex) q.1).getD []
              ++ [i] := (Option.some_inj.mp hqget).symm
          cases hgR : mapGet (hook.events.foldl
              (fun idx e => indexRemove idx e i) s.eventIndex) q.1 with
          | none =>
            rw [hgR] at hq2
            simp only [Option.getD_none, List.nil_append] at hq2
            refine ⟨by rw [hq2]; exact List.nodup_singleton _, ?_⟩
            intro i' hi'
            rw [hq2] at hi'
            have hii : i' = i := by simpa using hi'
            subst hii
            exact ⟨_, mapSet_mem_self _ _ _, rfl, hqe⟩
          | some idsR =>
            rw [hgR] at hq2
            simp only [Option.getD_some] at hq2
            obtain ⟨hndR, hiR, hlR⟩ := hF1 _ _ hgR
            constructor
            · rw [hq2]
              simp [List.nodup_append, hndR, hiR]
            · intro i' hi'
              rw [hq2] at hi'
              rcases List.mem_append.mp hi' with hiold | hinew
              · obtain ⟨p, hp, hpi, hpe⟩ := hlR i' hiold
                have hpne : p.1 ≠ i := fun hc =>
                  hiR ((hpi.symm.trans hc) ▸ hiold)
                exact ⟨p, mem_mapSet_of_mem_ne _ _ _ _ hp hpne, hpi, hpe⟩
              · have hii : i' = i := by simpa using hinew
                subst hii
                exact ⟨_, mapSet_mem_self _ _ _, rfl, hqe⟩
        · rw [if_neg hqe] at hqget
          obtain ⟨hndR, hiR, hlR⟩ := hF1 _ _ hqget
          refine ⟨hndR, fun i' hi' => ?_⟩
          obtain ⟨p, hp, hpi, hpe⟩ := hlR i' hi'
          have hpne : p.1 ≠ i := fun hc => hiR ((hpi.symm.trans hc) ▸ hi')
          exact ⟨p, mem_mapSet_of_mem_ne _ _ _ _ hp hpne, hpi, hpe⟩
      · intro p hp e he
        rcases mem_mapSet_nodup _ _ _ _ hknd hp with hpkv | ⟨hm, hpne⟩
        · subst hpkv
          simp only at he
          have hge : mapGet (evs.foldl (fun idx e => indexPush idx e i)
              (hook.events.foldl (fun idx e => indexRemove idx e i)
                s.eventIndex)) e =
              some ((mapGet (hook.events.foldl
                (fun idx e => indexRemove idx e i) s.eventIndex) e).getD []
                ++ [i]) := by
            rw [foldl_indexPush_get i _ hokev, if_pos he]
          exact ⟨_, mapGet_mem _ _ _ hge, rfl, by simp⟩
        · obtain ⟨idsR, hgR, hmemR⟩ := hF2 p hm hpne e he
          by_cases hee : e ∈ evs
          · have hge : mapGet (evs.foldl (fun idx e => indexPush idx e i)
                (hook.events.foldl (fun idx e => indexRemove idx e i)
                  s.eventIndex)) e = some (idsR ++ [i]) := by
              rw [foldl_indexPush_get i _ hokev, if_pos hee, hgR]
              rfl
            exact ⟨_, mapGet_mem _ _ _ hge, rfl, List.mem_append_left _ hmemR⟩
          · have hge : mapGet (evs.foldl (fun idx e => indexPush idx e i)
                (hook.events.foldl (fun idx e => indexRemove idx e i)
                  s.eventIndex)) e = some idsR := by
              rw [foldl_indexPush_get i _ hokev, if_neg hee]
              exact hgR
            exact ⟨_, mapGet_mem _ _ _ hge, rfl, hmemR⟩


/-- Every operation, applied under its `okOp` precondition, preserves full
store well-formedness; failing operations leave the state unchanged. -/
theorem applyOp_preserves_wf (s : RegistryState) (op : RegOp)
    (hwf : StoreWF s) (hok : okOp s op = true) : StoreWF (applyOp s op) := by
  cases op with
  | register cfg =>
    cases hreg : register s cfg with
    | ok s' =>
      have hw := register_preserves_wf s cfg s' hwf hok hreg
      simpa [applyOp, hreg, Except.toOption] using hw
    | error e => simpa [applyOp, hreg, Except.toOption] using hwf
  | unregister i =>
    cases hreg : unregister s i with
    | ok s' =>
      have hw := unregister_preserves_wf s i s' hwf hreg
      simpa [applyOp, hreg, Except.toOption] using hw
    | error e => simpa [applyOp, hreg, Except.toOption] using hwf
  | enable i =>
    cases hreg : enable s i with
    | ok s' =>
      have hw := enable_preserves_wf s i s' hwf hreg
      simpa [applyOp, hreg, Except.toOption] using hw
    | error e => simpa [applyOp, hreg, Except.toOption] using hwf
  | disable i =>
    cases hreg : disable s i with
    | ok s' =>
      have hw := disable_preserves_wf s i s' hwf hreg
      simpa [applyOp, hreg, Except.toOption] using hw
    | error e => simpa [applyOp, hreg, Except.toOption] using hwf
  | updatePriority i priority =>
    cases hreg : updatePriority s i priority with
    | ok s' =>
      have hw := updatePriority_preserves_wf s i priority s' hwf hreg
      simpa [applyOp, hreg, Except.toOption] using hw
    | error e => simpa [applyOp, hreg, Except.toOption] using hwf
  | updateEvents i evs =>
    cases hreg : updateEvents s i evs with
    | ok s' =>
      have hw := updateEvents_preserves_wf s i evs s' hwf hok hreg
      simpa [applyOp, hreg, Except.toOption] using hw
    | error e => simpa [applyOp, hreg, Except.toOption] using hwf

/-- The fresh registry is well-formed. -/
theorem storeWF_empty : StoreWF emptyRegistry := by decide

/-- Well-formedness is preserved along any `okTrace`. -/
theorem applyOps_preserves_wf (ops : List RegOp) (s : RegistryState)
    (hwf : StoreWF s) (htr : okTrace s ops = true) :
    StoreWF (applyOps s ops) := by
  induction ops generalizing s with
  | nil => exact hwf
  | cons op rest ih =>
    simp only [okTrace, Bool.and_eq_true] at htr
    exact ih (applyOp s op) (applyOp_preserves_wf s op hwf htr.1) htr.2

/-- Full well-formedness implies the spec's data-model invariant. -/
theorem storeWF_invariant (s : RegistryState) (h : StoreWF s) :
    RegistryInvariant s := by
  obtain ⟨hknd, hend, hprops, hidx, hlink⟩ := h
  exact ⟨fun p hp => ⟨(hprops p hp).2.2.2.1, (hprops p hp).2.2.2.2,
      (hprops p hp).2.1⟩,
    hknd, fun q hq => (hidx q hq).1⟩

/-- C9 counterexample: registering the same well-formed definition twice —
with priority 2000 — succeeds both times and leaves the store with that
out-of-range priority and with the id `"h"` listed twice in the
`SessionStart` index, violating the claimed invariant: `register` neither
enforces the priority range nor id freshness. -/
theorem c9_counterexample :
    ¬ RegistryInvariant (applyOps emptyRegistry
      [.register { id := some "h", name := some "n",
                   events := some [.SessionStart],
                   handler := some .command, priority := some 2000 },
       .register { id := some "h", name := some "n",
                   events := some [.SessionStart],
                   handler := some .command, priority := some 2000 }]) := by
  decide

/-- C9 (amended): every sequence of registry operations starting from the
empty store preserves the data-model invariant — each stored priority in
`[0, 1000]`, events non-empty, ids unique, and each id at most once per
event index — provided each successful `register` along the way uses a
fresh id, a duplicate-free events list and a (defaulted) priority within
`[0, 1000]`, and each `updateEvents` a duplicate-free events list. -/
theorem c9_invariant_preserved (ops : List RegOp)
    (htrace : okTrace emptyRegistry ops = true) :
    RegistryInvariant (applyOps emptyRegistry ops) :=
  storeWF_invariant _ (applyOps_preserves_wf ops emptyRegistry storeWF_empty htrace)

set_option maxRecDepth 8192 in
/-- Witness for C9: a concrete trace of all six operations from the empty
store keeps the invariant. -/
theorem c9_witness :
    RegistryInvariant (applyOps emptyRegistry
      [.register { id := some "a", name := some "A",
                   events := some [.PreToolUse, .SessionStart],
                   handler := some .command, priority := some 10 },
       .register { id := some "b", name := some "B",
                   events := some [.PreToolUse],
                   handler := some .prompt, priority := some 5 },
       .disable "a",
       .updatePriority "b" 7,
       .updateEvents "b" [.SessionEnd],
       .unregister "a"]) :=
  c9_invariant_preserved _ (by decide)

/-- C6: for a well-formed store, `getHooksForEvent` returns only enabled
hooks, sorted ascending by priority, and its members are exactly the stored
hooks registered for the event whose enabled flag is true; after a
successful `disable` of a handler (without unregistering it) that handler
no longer appears in the result. -/
theorem c6_forEvent (s : RegistryState) (hwf : StoreWF s) (e : HookEvent)
    (i : String) :
    (∀ h ∈ getHooksForEvent s e, h.enabled = true) ∧
    (getHooksForEvent s e).Pairwise (fun a b => a.priority ≤ b.priority) ∧
    (∀ h : RegHook, h ∈ getHooksForEvent s e ↔
      ((h.id, h) ∈ s.hooks ∧ h.enabled = true ∧ e ∈ h.events)) ∧
    (∀ s', disable s i = .ok s' → ∀ h ∈ getHooksForEvent s' e, h.id ≠ i) := by
  obtain ⟨hknd, hend, hprops, hidx, hlink⟩ := hwf
  refine ⟨?_, sorted_getHooksForEvent s e, ?_, ?_⟩
  · intro h hm
    exact ((mem_getHooksForEvent s e h).mp hm).2
  · intro h
    rw [mem_getHooksForEvent]
    constructor
    · rintro ⟨⟨i', hi', hget⟩, hen⟩
      cases hgidx : mapGet s.eventIndex e with
      | none =>
        rw [hgidx] at hi'
        simp at hi'
      | some ids =>
        rw [hgidx] at hi'
        simp only [Option.getD_some] at hi'
        obtain ⟨hnodupids, hlinkids⟩ := hidx _ (mapGet_mem _ _ _ hgidx)
        obtain ⟨p, hp, hpi, hpe⟩ := hlinkids i' hi'
        have hpmem : (i', h) ∈ s.hooks := mapGet_mem _ _ _ hget
        have hid : h.id = i' := (hprops _ hpmem).1
        have hget2 := mem_hooks_eq_get s hknd p hp
        rw [hpi, hget] at hget2
        have hph : p.2 = h := (Option.some_inj.mp hget2).symm
        refine ⟨?_, hen, ?_⟩
        · rw [hid]
          exact hpmem
        · rw [← hph]
          exact hpe
    · rintro ⟨hmem, hen, hev⟩
      have hget : mapGet s.hooks h.id = some h :=
        (mapGet_eq_some_iff _ _ _ hknd).mpr hmem
      obtain ⟨q, hq, hq1, hqmem⟩ := hlink _ hmem e hev
      have hqget : mapGet s.eventIndex e = some q.2 := by
        rcases q with ⟨qe, qids⟩
        simp only at hq1
        subst hq1
        exact (mapGet_eq_some_iff _ _ _ hend).mpr hq
      refine ⟨⟨h.id, ?_, hget⟩, hen⟩
      rw [hqget]
      simpa using hqmem
  · rintro s' hs' h hm
    cases hgk : mapGet s.hooks i with
    | none =>
      unfold disable at hs'
      rw [hgk] at hs'
      exact absurd hs' (by simp)
    | some hook =>
      rw [disable_eq s i hook hgk] at hs'
      obtain rfl := Except.ok.inj hs'
      rw [mem_getHooksForEvent] at hm
      obtain ⟨⟨i', hi', hget⟩, hen⟩ := hm
      dsimp only at hget hi'
      by_cases hii : i' = i
      · subst hii
        rw [mapGet_mapSet_self] at hget
        have hh : h = { hook with enabled := false } :=
          (Option.some_inj.mp hget).symm
        rw [hh] at hen
        simp at hen
      · rw [mapGet_mapSet_ne _ _ _ _ hii] at hget
        have hid : h.id = i' := (hprops _ (mapGet_mem _ _ _ hget)).1
        rw [hid]
        exact hii

set_option maxRecDepth 8192 in
/-- Witness for C6: a concrete two-hook store (one hook disabled), with the
membership characterization instantiated at the enabled hook. -/
theorem c6_witness :
    (({ id := "a", name := "A", events := [.PreToolUse], handler := .command,
        priority := 10 } : RegHook) ∈
      getHooksForEvent
        { hooks := [("a", { id := "a", name := "A", events := [.PreToolUse],
                            handler := .command, priority := 10 }),
                    ("b", { id := "b", name := "B", enabled := false,
                            events := [.PreToolUse], handler := .command,
                            priority := 5 })],
          eventIndex := [(.PreToolUse, ["a", "b"])] } .PreToolUse ↔
      (("a", ({ id := "a", name := "A", events := [.PreToolUse],
                handler := .command, priority := 10 } : RegHook)) ∈
          ({ hooks := [("a", { id := "a", name := "A", events := [.PreToolUse],
                               handler := .command, priority := 10 }),
                       ("b", { id := "b", name := "B", enabled := false,
                               events := [.PreToolUse], handler := .command,
                               priority := 5 })],
             eventIndex := [(.PreToolUse, ["a", "b"])] } : RegistryState).hooks ∧
        true = true ∧ HookEvent.PreToolUse ∈ [HookEvent.PreToolUse])) :=
  (c6_forEvent
    { hooks := [("a", { id := "a", name := "A", events := [.PreToolUse],
                        handler := .command, priority := 10 }),
                ("b", { id := "b", name := "B", enabled := false,
                        events := [.PreToolUse], handler := .command,
                        priority := 5 })],
      eventIndex := [(.PreToolUse, ["a", "b"])] }
    (by decide) .PreToolUse "b").2.2.1 _

end HookManager
